import Mathlib

/-! # grafana-backup: a shallow embedding of `do-backup.go`

The file embeds the backup orchestration of `do-backup.go` (`doBackup`,
`backupDashboards`, `backupUsers`, `backupDatasources`, `extractDatasources`,
`VerifyOrCreateDir`) as pure functions over an explicit world: a filesystem state,
the number of polls of the `cancel` channel made so far, and the chronological
trace of the calls the program made to its collaborators.

* The Grafana client (`cmd.grafana`), `encoding/json`, `slug.Make`, `fmt.Sprintf`
  and the `os` filesystem calls are code outside the repository.  They are taken as
  parameters (`Client`, `Runtime`, `OS`), so the theorems about the passes hold for
  any behaviour of these collaborators.  `path.Join` is modelled in full,
  `fmt.Sprintf` on the fragment of format strings described at `doPrintf`; a
  `Sprintf` parameter is tied to that fragment by `SprintfSound` where a statement
  depends on what `Sprintf` prints.
* An in-memory filesystem (`memOS`) and a toy Grafana (`demoClient`, `demoRuntime`)
  instantiate the parameters, so that every statement can be evaluated on concrete
  runs.
* Writes to stdout and stderr (progress and error reports) have no influence on
  control flow and are left out of the world.
* `os.Exit` and `exitBySignal` end the process: a run either returns or halts.
-/

set_option autoImplicit false

namespace GrafanaBackup

/-! ## Go values -/

/-- A Go `[]byte`. -/
abbrev Bytes := List UInt8

/-- The error numbers the in-memory filesystem below can report. -/
inductive Errno where
  | ENOENT
  | ENOTDIR
  | EISDIR
  deriving DecidableEq, Repr

/-- Go `error` values: one made by `errors.New`, an `*os.PathError`, or an error
of a collaborator (client, json) known only by its message. -/
inductive GoError where
  | errorString (msg : String)
  | pathError (op : String) (path : String) (errno : Errno)
  | other (msg : String)
  deriving DecidableEq, Repr

/-- Go `os.IsNotExist`: the error reports that a file or directory does not exist. -/
def osIsNotExist : GoError → Bool
  | .pathError _ _ .ENOENT => true
  | _ => false

/-- A Go `map[string]bool`, as an association list without repeated keys.
A nil map is `none : Option GoMap` where the distinction matters. -/
abbrev GoMap := List (String × Bool)

/-- Key presence, `_, ok := m[k]`. -/
def GoMap.has (m : GoMap) (k : String) : Bool :=
  m.any (fun e => e.1 == k)

/-- Assignment `m[k] = v`. -/
def GoMap.set (m : GoMap) (k : String) (v : Bool) : GoMap :=
  (k, v) :: m.filter (fun e => e.1 != k)

/-! ## The `sdk` records, with the fields `do-backup.go` reads -/

/-- The `sdk.FoundBoard` search result. -/
structure FoundBoard where
  URI : String
  deriving DecidableEq, Repr

/-- The `sdk.BoardProperties` metadata of a fetched dashboard. -/
structure BoardProperties where
  Slug : String
  deriving DecidableEq, Repr

/-- A `sdk.Panel`; `Datasource` is a `*string`, `none` being the nil pointer. -/
structure Panel where
  Datasource : Option String
  deriving DecidableEq, Repr

/-- A `sdk.Row`. -/
structure Row where
  Panels : List Panel
  deriving DecidableEq, Repr

/-- A `sdk.Board`. -/
structure Board where
  Title : String
  Rows : List Row
  deriving DecidableEq, Repr

/-- A `sdk.User`; `OrgID` is a Go `uint`. -/
structure User where
  Login : String
  Name : String
  OrgID : Nat
  deriving DecidableEq, Repr

/-- A `sdk.Datasource`; `OrgID` is a Go `uint`. -/
structure Datasource where
  Name : String
  OrgID : Nat
  deriving DecidableEq, Repr

/-- The zero value of `sdk.Board`, the initial value of `var board sdk.Board`. -/
def Board.zero : Board := { Title := "", Rows := [] }

/-! ## `path.Join` -/

/-- Split a path at every slash. -/
def splitSlash : List Char → List (List Char)
  | [] => [[]]
  | c :: cs =>
    if c = '/' then [] :: splitSlash cs
    else
      match splitSlash cs with
      | [] => [[c]]
      | h :: t => (c :: h) :: t

/-- Join path elements with single slashes. -/
def joinSlash : List (List Char) → List Char
  | [] => []
  | [e] => e
  | e :: es => e ++ '/' :: joinSlash es

/-- One element of `path.Clean`: `out` holds the elements kept so far, the last
one first.  Empty and `.` elements are dropped; `..` removes the element before it,
is kept in front of a path that is not rooted, and is dropped at the root. -/
def cleanStep (rooted : Bool) (out : List (List Char)) (e : List Char) : List (List Char) :=
  if e = [] ∨ e = ['.'] then out
  else if e = ['.', '.'] then
    match out with
    | [] => if rooted then [] else [e]
    | top :: rest => if top = ['.', '.'] then e :: top :: rest else rest
  else e :: out

/-- Go `path.Clean` on the characters of a path. -/
def cleanChars (path : List Char) : List Char :=
  if path = [] then ['.']
  else
    let rooted := path.head? == some '/'
    let out := ((splitSlash path).foldl (cleanStep rooted) []).reverse
    if rooted then '/' :: joinSlash out
    else if out = [] then ['.']
    else joinSlash out

/-- Go `path.Join`: empty elements are ignored, the rest joined by slashes and the
result cleaned; the result is empty when every element is. -/
def pathJoin (elem : List String) : String :=
  let parts := (elem.filter (fun e => e != "")).map String.toList
  if parts = [] then "" else String.mk (cleanChars (joinSlash parts))

/-! ## `fmt.Sprintf` -/

/-- An operand of `Sprintf` in `do-backup.go`: a `string` or a `uint`. -/
inductive Arg where
  | string (s : String)
  | uint (n : Nat)
  deriving DecidableEq, Repr

/-- Decimal digits of `n`, most significant first; `fuel` bounds the number of digits. -/
def decDigits : Nat → Nat → List Char
  | 0, _ => []
  | fuel + 1, n =>
    if n < 10 then [Nat.digitChar n]
    else decDigits fuel (n / 10) ++ [Nat.digitChar (n % 10)]

/-- The verb `%d` on an unsigned integer. -/
def fmtInteger (n : Nat) : List Char :=
  decDigits (n + 1) n

/-- The verb `%c` on an unsigned integer (Go `fmtC`): the character with that code
point, U+FFFD when the number is not a valid code point. -/
def fmtC (n : Nat) : Char :=
  if Nat.isValidChar n then Char.ofNat n else Char.ofNat 0xFFFD

/-- The Go type name printed in a bad-verb report. -/
def Arg.typeName : Arg → List Char
  | .string _ => "string".toList
  | .uint _ => "uint".toList

/-- The verb `%v`. -/
def Arg.fmtV : Arg → List Char
  | .string s => s.toList
  | .uint n => fmtInteger n

/-- Go `badVerb`: a verb that does not apply to the operand's type. -/
def badVerb (verb : Char) (a : Arg) : List Char :=
  "%!".toList ++ verb :: '(' :: a.typeName ++ '=' :: a.fmtV ++ [')']

/-- Go `missingArg`: a verb with no operand left. -/
def missingArg (verb : Char) : List Char :=
  "%!".toList ++ verb :: "(MISSING)".toList

/-- Go `printArg` for the verbs `s`, `d`, `c`, `v`; any other verb is outside the
modelled fragment (`none`). -/
def printArg (verb : Char) : Arg → Option (List Char)
  | .string s =>
    if verb = 's' ∨ verb = 'v' then some s.toList
    else if verb = 'd' ∨ verb = 'c' then some (badVerb verb (.string s))
    else none
  | .uint n =>
    if verb = 'd' ∨ verb = 'v' then some (fmtInteger n)
    else if verb = 'c' then some [fmtC n]
    else if verb = 's' then some (badVerb verb (.uint n))
    else none

/-- The report of operands no verb consumed. -/
def extraArgs : List Arg → List Char
  | [] => []
  | a :: rest =>
    "%!(EXTRA ".toList ++ a.typeName ++ '=' :: a.fmtV ++
      (rest.map (fun b => ", ".toList ++ b.typeName ++ '=' :: b.fmtV)).flatten ++ [')']

/-- Go `doPrintf` on the fragment of format strings in which every `%` is followed
by one of `%`, `s`, `d`, `c`, `v` (no flags, width, precision or argument index), or
ends the string.  Text is copied, `%%` prints a percent sign, a verb consumes the next
operand, a verb without operand prints `%!verb(MISSING)`.  `none` marks a format
outside the fragment. -/
def doPrintf : List Char → List Arg → Option (List Char)
  | [], a => some (extraArgs a)
  | [c], a => if c = '%' then some ("%!(NOVERB)".toList ++ extraArgs a) else some (c :: extraArgs a)
  | c :: verb :: rest, a =>
    if c = '%' then
      if verb = '%' then (doPrintf rest a).map (fun r => '%' :: r)
      else if verb = 's' ∨ verb = 'd' ∨ verb = 'c' ∨ verb = 'v' then
        match a with
        | [] => (doPrintf rest []).map (fun r => missingArg verb ++ r)
        | x :: xs =>
          match printArg verb x, doPrintf rest xs with
          | some s, some r => some (s ++ r)
          | _, _ => none
      else none
    else (doPrintf (verb :: rest) a).map (fun r => c :: r)

/-- Go `fmt.Sprintf` on the modelled fragment. -/
def fmtSprintf (format : String) (a : List Arg) : Option String :=
  (doPrintf format.toList a).map String.mk

/-- A total `Sprintf` agrees with Go on the modelled fragment. -/
def SprintfSound (sprintf : String → List Arg → String) : Prop :=
  ∀ format a s, fmtSprintf format a = some s → sprintf format a = s

/-! ## Collaborators -/

/-- The result of `os.Stat`. -/
structure FileInfo where
  IsDir : Bool
  deriving DecidableEq, Repr

/-- The `os` calls of `do-backup.go` over a filesystem state `σ`. `Stat` only reads
the state; `MkdirAll` and `WriteFile` return the new state and the error, if any. -/
structure OS (σ : Type) where
  Stat : σ → String → Except GoError FileInfo
  MkdirAll : σ → String → Nat → σ × Option GoError
  WriteFile : σ → String → Bytes → Nat → σ × Option GoError

/-- The methods of the `sdk` client in `cmd.grafana` that the backup calls. -/
structure Client where
  SearchDashboards : String → Bool → List String → Except GoError (List FoundBoard)
  GetRawDashboardBySlug : String → Except GoError (Bytes × BoardProperties)
  GetAllUsers : Except GoError (List User)
  GetAllDatasources : Except GoError (List Datasource)

/-- The `command` built by `initCommand(opts...)`: the mode flags, the search filter,
verbosity and the client. -/
structure Command where
  applyHierarchically : Bool
  applyForBoards : Bool
  applyForDs : Bool
  applyForUsers : Bool
  boardTitle : String
  starred : Bool
  tags : List String
  verbose : Bool
  grafana : Client

/-- Everything else the backup depends on: the filesystem calls, the state of the
`cancel` channel at each poll (`cancel n` tells whether a signal is waiting at poll
number `n` of the run), the json codec, `slug.Make`, `fmt.Sprintf` and the `-dir`
flag.  `json.Unmarshal` receives the current value of the variable it decodes into;
`json.Marshal` returns its bytes together with its error. -/
structure Runtime (σ : Type) where
  os : OS σ
  cancel : Nat → Bool
  jsonUnmarshalBoard : Bytes → Board → Board × Option GoError
  jsonMarshalUser : User → Bytes × Option GoError
  jsonMarshalDatasource : Datasource → Bytes × Option GoError
  slugMake : String → String
  Sprintf : String → List Arg → String
  flagDir : String

/-! ## World, trace and outcome -/

/-- A call of one of the three passes, with the filter map a datasource pass is given. -/
inductive Call where
  | backupDashboards
  | backupUsers
  | backupDatasources (datasources : Option GoMap)
  deriving DecidableEq, Repr

/-- What the trace records: entry into a pass, the client calls, `json.Unmarshal`
of a dashboard, and the filesystem calls with their error results. -/
inductive Event where
  | call (c : Call)
  | SearchDashboards (title : String) (starred : Bool) (tags : List String)
  | GetRawDashboardBySlug (uri : String)
  | GetAllUsers
  | GetAllDatasources
  | Unmarshal (data : Bytes)
  | Stat (path : String)
  | MkdirAll (path : String) (perm : Nat) (err : Option GoError)
  | WriteFile (path : String) (data : Bytes) (perm : Nat) (err : Option GoError)
  deriving DecidableEq, Repr

/-- The state of a run. -/
structure World (σ : Type) where
  fs : σ
  polls : Nat
  trace : List Event
  deriving DecidableEq, Repr

/-- Append an event to the trace. -/
def World.log {σ : Type} (w : World σ) (e : Event) : World σ :=
  { w with trace := w.trace ++ [e] }

/-- One poll of the `cancel` channel. -/
def World.poll {σ : Type} (w : World σ) : World σ :=
  { w with polls := w.polls + 1 }

/-- How a process ends other than by returning. -/
inductive Halt where
  | osExit (code : Nat)
  | exitBySignal
  deriving DecidableEq, Repr

/-- The result of running a piece of the program: it returns with its local
variables `α`, or the process halts. -/
inductive Outcome (σ : Type) (α : Type) where
  | returned (a : α) (w : World σ)
  | halted (h : Halt) (w : World σ)
  deriving DecidableEq, Repr

/-- The world a run ends in. -/
def Outcome.world {σ α : Type} : Outcome σ α → World σ
  | .returned _ w => w
  | .halted _ w => w

/-- Sequencing of statements: what follows runs only when the first part returns. -/
def Outcome.andThen {σ α β : Type} (o : Outcome σ α) (k : α → World σ → Outcome σ β) :
    Outcome σ β :=
  match o with
  | .returned a w => k a w
  | .halted h w => .halted h w

/-- Modelled from the spec: `exitBySignal` is declared outside `do-backup.go`; by
the CancellationGate contract (4.8) "On terminate, the process exits immediately
without completing the in-flight item or any remaining items". -/
def exitBySignal {σ α : Type} (w : World σ) : Outcome σ α :=
  .halted .exitBySignal w

/-! ## Trace projections -/

/-- Path and bytes of a `WriteFile` call. -/
def Event.attempt? : Event → Option (String × Bytes)
  | .WriteFile p d _ _ => some (p, d)
  | _ => none

/-- Path and bytes of a `WriteFile` call that returned no error. -/
def Event.written? : Event → Option (String × Bytes)
  | .WriteFile p d _ none => some (p, d)
  | _ => none

/-- Path and bytes of a `WriteFile` call that returned an error. -/
def Event.failed? : Event → Option (String × Bytes)
  | .WriteFile p d _ (some _) => some (p, d)
  | _ => none

/-- The pass an event enters. -/
def Event.call? : Event → Option Call
  | .call c => some c
  | _ => none

/-- The dashboard an event fetches. -/
def Event.fetch? : Event → Option String
  | .GetRawDashboardBySlug uri => some uri
  | _ => none

/-- The document an event hands to `json.Unmarshal`. -/
def Event.unmarshal? : Event → Option Bytes
  | .Unmarshal d => some d
  | _ => none

/-- The `WriteFile` calls of a trace, in order. -/
def writesAttempted (tr : List Event) : List (String × Bytes) :=
  tr.filterMap Event.attempt?

/-- The `WriteFile` calls of a trace that returned no error: the files written. -/
def filesWritten (tr : List Event) : List (String × Bytes) :=
  tr.filterMap Event.written?

/-- The `WriteFile` calls of a trace that returned an error. -/
def writesFailed (tr : List Event) : List (String × Bytes) :=
  tr.filterMap Event.failed?

/-- The passes entered, in order. -/
def callsOf (tr : List Event) : List Call :=
  tr.filterMap Event.call?

/-- The dashboards fetched (`GetRawDashboardBySlug` calls), in order. -/
def fetchesOf (tr : List Event) : List String :=
  tr.filterMap Event.fetch?

/-- The documents handed to `json.Unmarshal`, in order. -/
def unmarshalsOf (tr : List Event) : List Bytes :=
  tr.filterMap Event.unmarshal?

/-! ## `do-backup.go` -/

/-- `VerifyOrCreateDir(directory)`: the returned error and the world after the call. -/
def VerifyOrCreateDir {σ : Type} (os : OS σ) (directory : String) (w : World σ) :
    Option GoError × World σ :=
  let w := w.log (.Stat directory)
  match os.Stat w.fs directory with
  | .ok stat =>
    if !stat.IsDir then (some (.errorString "Specified path is not a directory!"), w)
    else (none, w)
  | .error err =>
    if osIsNotExist err then
      let r := os.MkdirAll w.fs directory 0o755
      (r.2, { w with fs := r.1, trace := w.trace ++ [.MkdirAll directory 0o755 r.2] })
    else (some err, w)

/-- `extractDatasources(cmd, datasources, board)`: the map after the call (`cmd` is
read for the verbose report only). -/
def extractDatasources (datasources : GoMap) (board : Board) : GoMap :=
  board.Rows.foldl
    (fun m row =>
      row.Panels.foldl
        (fun m panel =>
          match panel.Datasource with
          | some name => m.set name true
          | none => m)
        m)
    datasources

/-- `ioutil.WriteFile(fname, data, os.FileMode(int(0666)))`, recorded in the trace. -/
def writeFile {σ : Type} (rt : Runtime σ) (fname : String) (data : Bytes) (w : World σ) :
    World σ :=
  let r := rt.os.WriteFile w.fs fname data 0o666
  { w with fs := r.1, trace := w.trace ++ [.WriteFile fname data 0o666 r.2] }

/-- The loop `for _, x := range items { select { case <-cancel: exitBySignal()
default: body } }` shared by the three passes.  `body` is the `default` branch; it
cannot end the process, and `continue` ends it early.  `l` holds the variables the
loop carries from one iteration to the next. -/
def rangeSelect {σ ι L : Type} (rt : Runtime σ) (body : ι → L → World σ → L × World σ) :
    List ι → L → World σ → Outcome σ L
  | [], l, w => .returned l w
  | x :: xs, l, w =>
    if rt.cancel w.polls then exitBySignal w.poll
    else
      let r := body x l w.poll
      rangeSelect rt body xs r.1 r.2

/-- The file name of a dashboard, line 91. -/
def dashboardFname {σ : Type} (rt : Runtime σ) (slug : String) : String :=
  rt.Sprintf (pathJoin [rt.flagDir, "%s.db.json"]) [.string slug]

/-- The file name of a user, line 126. -/
def userFname {σ : Type} (rt : Runtime σ) (user : User) : String :=
  rt.Sprintf (pathJoin [rt.flagDir, "%s.user.%d.json"])
    [.string (rt.slugMake user.Login), .uint user.OrgID]

/-- The file name of a datasource, line 173. -/
def datasourceFname {σ : Type} (rt : Runtime σ) (ds : Datasource) : String :=
  rt.Sprintf (pathJoin [rt.flagDir, "%s.ds.%d.json"])
    [.string (rt.slugMake ds.Name), .uint ds.OrgID]

/-- The variables of `backupDashboards` that live across iterations: `board`, which
every `json.Unmarshal` decodes into, and the `datasources` map. -/
structure DashVars where
  board : Board
  datasources : GoMap
  deriving DecidableEq, Repr

/-- The `default` branch of the loop of `backupDashboards`, lines 80-98. -/
def dashboardBody {σ : Type} (rt : Runtime σ) (cmd : Command) (link : FoundBoard)
    (l : DashVars) (w : World σ) : DashVars × World σ :=
  let w := w.log (.GetRawDashboardBySlug link.URI)
  match cmd.grafana.GetRawDashboardBySlug link.URI with
  | .error _ => (l, w)
  | .ok (rawBoard, props) =>
    let lw : DashVars × World σ :=
      if cmd.applyHierarchically then
        let r := rt.jsonUnmarshalBoard rawBoard l.board
        let w := w.log (.Unmarshal rawBoard)
        match r.2 with
        | some _ => ({ l with board := r.1 }, w)
        | none => ({ board := r.1, datasources := extractDatasources l.datasources r.1 }, w)
      else (l, w)
    (lw.1, writeFile rt (dashboardFname rt props.Slug) rawBoard lw.2)

/-- The `default` branch of the loop of `backupUsers`, lines 125-133: the error of
`json.Marshal` is assigned to `_`. -/
def userBody {σ : Type} (rt : Runtime σ) (user : User) (l : Unit) (w : World σ) :
    Unit × World σ :=
  let rawUser := (rt.jsonMarshalUser user).1
  (l, writeFile rt (userFname rt user) rawUser w)

/-- The `default` branch of the loop of `backupDatasources`, lines 162-182. -/
def datasourceBody {σ : Type} (rt : Runtime σ) (datasources : Option GoMap)
    (ds : Datasource) (l : Unit) (w : World σ) : Unit × World σ :=
  let skip : Bool :=
    match datasources with
    | some m => !m.has ds.Name
    | none => false
  if skip then (l, w)
  else
    match rt.jsonMarshalDatasource ds with
    | (_, some _) => (l, w)
    | (rawDs, none) => (l, writeFile rt (datasourceFname rt ds) rawDs w)

/-- `backupDatasources(cmd, datasources)`. -/
def backupDatasources {σ : Type} (rt : Runtime σ) (cmd : Command)
    (datasources : Option GoMap) (w : World σ) : Outcome σ Unit :=
  let w := (w.log (.call (.backupDatasources datasources))).log .GetAllDatasources
  match cmd.grafana.GetAllDatasources with
  | .error _ => .returned () w
  | .ok allDatasources =>
    let w := (VerifyOrCreateDir rt.os rt.flagDir w).2
    rangeSelect rt (datasourceBody rt datasources) allDatasources () w

/-- `backupUsers(cmd)`. -/
def backupUsers {σ : Type} (rt : Runtime σ) (cmd : Command) (w : World σ) : Outcome σ Unit :=
  let w := (w.log (.call .backupUsers)).log .GetAllUsers
  match cmd.grafana.GetAllUsers with
  | .error _ => .returned () w
  | .ok allUsers =>
    let w := (VerifyOrCreateDir rt.os rt.flagDir w).2
    rangeSelect rt (userBody rt) allUsers () w

/-- `backupDashboards(cmd)`: a failed search ends the process with `os.Exit(1)`. -/
def backupDashboards {σ : Type} (rt : Runtime σ) (cmd : Command) (w : World σ) :
    Outcome σ Unit :=
  let w := (w.log (.call .backupDashboards)).log
    (.SearchDashboards cmd.boardTitle cmd.starred cmd.tags)
  match cmd.grafana.SearchDashboards cmd.boardTitle cmd.starred cmd.tags with
  | .error _ => .halted (.osExit 1) w
  | .ok boardLinks =>
    let w := (VerifyOrCreateDir rt.os rt.flagDir w).2
    (rangeSelect rt (dashboardBody rt cmd) boardLinks
        { board := Board.zero, datasources := [] } w).andThen fun l w =>
      if cmd.applyHierarchically then backupDatasources rt cmd (some l.datasources) w
      else .returned () w

/-- `doBackup(opts...)`, given the command `initCommand(opts...)` resolves to. -/
def doBackup {σ : Type} (rt : Runtime σ) (cmd : Command) (w : World σ) : Outcome σ Unit :=
  if cmd.applyHierarchically then backupDashboards rt cmd w
  else
    (if cmd.applyForBoards then backupDashboards rt cmd w else .returned () w).andThen
      fun _ w =>
        (if cmd.applyForDs then backupDatasources rt cmd none w else .returned () w).andThen
          fun _ w =>
            if cmd.applyForUsers then backupUsers rt cmd w else .returned () w

/-! ## Reference functions for the statements -/

/-- The `default` branches of a loop run one after the other, one poll before each:
the loop when no signal arrives. -/
def runBodies {σ ι L : Type} (body : ι → L → World σ → L × World σ) :
    List ι → L → World σ → L × World σ
  | [], l, w => (l, w)
  | x :: xs, l, w =>
    let r := body x l w.poll
    runBodies body xs r.1 r.2

/-- The same runtime with a `cancel` channel that never receives a signal. -/
def Runtime.neverCancelled {σ : Type} (rt : Runtime σ) : Runtime σ :=
  { rt with cancel := fun _ => false }

/-- The same command whose client lists the given datasources. -/
def Command.withDatasources (cmd : Command) (all : List Datasource) : Command :=
  { cmd with grafana := { cmd.grafana with GetAllDatasources := .ok all } }

/-- What one search result does to `board` and `datasources`: nothing when the fetch
fails or extraction is off; otherwise the document is decoded into `board`, and the
references of the decoded board are added when decoding reports no error. -/
def referenceStep {σ : Type} (rt : Runtime σ) (cmd : Command) (l : DashVars)
    (link : FoundBoard) : DashVars :=
  match cmd.grafana.GetRawDashboardBySlug link.URI with
  | .error _ => l
  | .ok (rawBoard, _) =>
    if cmd.applyHierarchically then
      match rt.jsonUnmarshalBoard rawBoard l.board with
      | (board, some _) => { l with board := board }
      | (board, none) =>
        { board := board, datasources := extractDatasources l.datasources board }
    else l

/-- The reference set accumulated over the search results of a run. -/
def referenceSet {σ : Type} (rt : Runtime σ) (cmd : Command) (links : List FoundBoard) :
    GoMap :=
  (links.foldl (referenceStep rt cmd) { board := Board.zero, datasources := [] }).datasources

/-- The write a search result leads to: none when its fetch fails, else the fetched
bytes under the name made from the fetched slug. -/
def dashboardWrite {σ : Type} (rt : Runtime σ) (cmd : Command) (link : FoundBoard) :
    Option (String × Bytes) :=
  match cmd.grafana.GetRawDashboardBySlug link.URI with
  | .error _ => none
  | .ok (rawBoard, props) => some (dashboardFname rt props.Slug, rawBoard)

/-- A datasource passes the filter: no filter map was given, or its name is a key. -/
def datasourceKept (datasources : Option GoMap) (ds : Datasource) : Bool :=
  match datasources with
  | some m => m.has ds.Name
  | none => true

/-- The write a datasource leads to: none when it is filtered out or its
serialization fails. -/
def datasourceWrite {σ : Type} (rt : Runtime σ) (datasources : Option GoMap)
    (ds : Datasource) : Option (String × Bytes) :=
  if datasourceKept datasources ds then
    match rt.jsonMarshalDatasource ds with
    | (_, some _) => none
    | (rawDs, none) => some (datasourceFname rt ds, rawDs)
  else none

/-- The write a user leads to. -/
def userWrite {σ : Type} (rt : Runtime σ) (user : User) : String × Bytes :=
  (userFname rt user, (rt.jsonMarshalUser user).1)

/-- A loop body leaves the poll counter alone. -/
def PollsFixed {σ ι L : Type} (body : ι → L → World σ → L × World σ) : Prop :=
  ∀ x l w, (body x l w).2.polls = w.polls

/-- A loop body only appends to the trace. -/
def TraceGrows {σ ι L : Type} (body : ι → L → World σ → L × World σ) : Prop :=
  ∀ x l w, ∃ δ, (body x l w).2.trace = w.trace ++ δ

/-- The world in which the loop of a pass starts: the pass has logged its entry `e₁`
and its list call `e₂` and has called `VerifyOrCreateDir`, whose result it drops. -/
def loopStart {σ : Type} (rt : Runtime σ) (e₁ e₂ : Event) (w : World σ) : World σ :=
  (VerifyOrCreateDir rt.os rt.flagDir ((w.log e₁).log e₂)).2

/-- The document a search result hands to `json.Unmarshal` when extraction is on. -/
def fetchedDocument (cmd : Command) (link : FoundBoard) : Option Bytes :=
  match cmd.grafana.GetRawDashboardBySlug link.URI with
  | .error _ => none
  | .ok (rawBoard, _) => some rawBoard

/-- The number a list of decimal digits stands for. -/
def digitsValue (cs : List Char) : Nat :=
  cs.foldl (fun acc c => acc * 10 + (c.toNat - 48)) 0

/-- A path element that is a plain file name: not empty, without slash, not `.` or
`..`. -/
def PlainName (p : List Char) : Prop :=
  splitSlash p = [p] ∧ p ≠ [] ∧ p ≠ ['.'] ∧ p ≠ ['.', '.']

/-- The events a run started in world `w` added to the trace. -/
def eventsOf {σ α : Type} (w : World σ) (o : Outcome σ α) : List Event :=
  o.world.trace.drop w.trace.length

/-! ## An in-memory filesystem

A small instance of `OS`, used to run the program on concrete inputs: a table from
clean paths to nodes, in which the root and `.` are directories, every operation is
permitted and permission bits are stored as given (no umask). -/

/-- A directory with its permission bits, or a regular file with its content. -/
inductive Node where
  | dir (perm : Nat)
  | file (data : Bytes) (perm : Nat)
  deriving DecidableEq, Repr

/-- The nodes of the filesystem by path. -/
abbrev MemFS := List (String × Node)

/-- The node at a clean path, if any. -/
def MemFS.lookup (fs : MemFS) (p : String) : Option Node :=
  if p = "." then some (.dir 0o755)
  else
    match fs.find? (fun e => e.1 == p) with
    | some e => some e.2
    | none => none

/-- Set the node at a path. -/
def MemFS.put (fs : MemFS) (p : String) (n : Node) : MemFS :=
  (p, n) :: fs.filter (fun e => e.1 != p)

/-- The ancestors of a path from the outermost inwards, the path itself last:
`a/b/c` gives `a`, `a/b`, `a/b/c`; the root gives the empty chain. -/
def pathChain (path : String) : List String :=
  let cs := cleanChars path.toList
  let rooted := cs.head? == some '/'
  let elems := (splitSlash cs).filter (fun e => e != [])
  elems.inits.tail.map (fun es => String.mk ((if rooted then ['/'] else []) ++ joinSlash es))

/-- `os.Stat` along a chain of ancestors. -/
def memStatChain (fs : MemFS) (path : String) : List String → Except GoError FileInfo
  | [] => .ok { IsDir := true }
  | [p] =>
    match fs.lookup p with
    | none => .error (.pathError "stat" path .ENOENT)
    | some (.dir _) => .ok { IsDir := true }
    | some (.file _ _) => .ok { IsDir := false }
  | p :: q :: rest =>
    match fs.lookup p with
    | none => .error (.pathError "stat" path .ENOENT)
    | some (.file _ _) => .error (.pathError "stat" path .ENOTDIR)
    | some (.dir _) => memStatChain fs path (q :: rest)

/-- `os.Stat` on the in-memory filesystem. -/
def memStat (fs : MemFS) (path : String) : Except GoError FileInfo :=
  memStatChain fs path (pathChain path)

/-- `os.MkdirAll` along a chain of ancestors: existing directories are kept, missing
ones created with `perm`, and a regular file in the way is an error. -/
def memMkdirChain (perm : Nat) : List String → MemFS → MemFS × Option GoError
  | [], fs => (fs, none)
  | p :: rest, fs =>
    match fs.lookup p with
    | some (.dir _) => memMkdirChain perm rest fs
    | some (.file _ _) => (fs, some (.pathError "mkdir" p .ENOTDIR))
    | none => memMkdirChain perm rest (fs.put p (.dir perm))

/-- `os.MkdirAll` on the in-memory filesystem. -/
def memMkdirAll (fs : MemFS) (path : String) (perm : Nat) : MemFS × Option GoError :=
  memMkdirChain perm (pathChain path) fs

/-- `ioutil.WriteFile` on the in-memory filesystem: the parent must be a directory
and the target must not be one; an existing file keeps its permission bits. -/
def memWriteFile (fs : MemFS) (path : String) (data : Bytes) (perm : Nat) :
    MemFS × Option GoError :=
  let chain := pathChain path
  match memStatChain fs path chain.dropLast, chain.getLast? with
  | .error (.pathError _ _ errno), _ => (fs, some (.pathError "open" path errno))
  | .error e, _ => (fs, some e)
  | .ok info, target =>
    if !info.IsDir then (fs, some (.pathError "open" path .ENOTDIR))
    else
      match target with
      | none => (fs, some (.pathError "open" path .EISDIR))
      | some p =>
        match fs.lookup p with
        | some (.dir _) => (fs, some (.pathError "open" path .EISDIR))
        | some (.file _ old) => (fs.put p (.file data old), none)
        | none => (fs.put p (.file data perm), none)

/-- The in-memory filesystem as an `OS`. -/
def memOS : OS MemFS :=
  { Stat := memStat, MkdirAll := memMkdirAll, WriteFile := memWriteFile }

/-- A total `Sprintf` from the modelled fragment: the empty string stands in for the
formats outside it. -/
def goSprintf (format : String) (a : List Arg) : String :=
  (fmtSprintf format a).getD ""

/-! ## Concrete inputs

A small Grafana with three dashboards, three datasources and five users, a toy json
codec, and an empty in-memory filesystem.  Names are lower-case ASCII words, on which
`slug.Make` is the identity. -/

/-- The board of the extraction example: a row with panels on `A`, `A`, `B` and a row
with a panel without datasource. -/
def boardAB : Board :=
  { Title := "one"
    Rows := [{ Panels := [{ Datasource := some "A" }, { Datasource := some "A" },
                          { Datasource := some "B" }] },
             { Panels := [{ Datasource := none }] }] }

/-- A board with one panel whose datasource reference is present and empty. -/
def boardEmptyName : Board :=
  { Title := "empty", Rows := [{ Panels := [{ Datasource := some "" }] }] }

/-- A board with one panel on `prometheus`. -/
def boardProm : Board :=
  { Title := "two", Rows := [{ Panels := [{ Datasource := some "prometheus" }] }] }

/-- A toy `json.Unmarshal`: document `[1]` decodes to a board on `prometheus`, `[2]`
to a board on `graphite`, anything else fails and leaves the variable as it was. -/
def demoUnmarshal (data : Bytes) (board : Board) : Board × Option GoError :=
  if data = [1] then (boardProm, none)
  else if data = [2] then
    ({ Title := "three", Rows := [{ Panels := [{ Datasource := some "graphite" }] }] }, none)
  else (board, some (.other "invalid character"))

/-- A toy `json.Marshal` of a user: one byte, the organization id.  Like
`encoding/json` on an `sdk.User`, a record of `uint`, `string` and `bool` fields, it
never fails. -/
def demoMarshalUser (user : User) : Bytes × Option GoError :=
  ([UInt8.ofNat user.OrgID], none)

/-- A toy `json.Marshal` of a datasource; it fails on the name `broken`. -/
def demoMarshalDatasource (ds : Datasource) : Bytes × Option GoError :=
  if ds.Name = "broken" then ([], some (.other "json: unsupported value"))
  else ([UInt8.ofNat ds.OrgID], none)

/-- The dashboards of the toy Grafana: `db/one` and `db/two` parse, `db/bad` does not,
any other dashboard cannot be fetched. -/
def demoFetch (uri : String) : Except GoError (Bytes × BoardProperties) :=
  if uri = "db/one" then .ok ([1], { Slug := "one" })
  else if uri = "db/two" then .ok ([2], { Slug := "two" })
  else if uri = "db/bad" then .ok ([0], { Slug := "bad" })
  else .error (.other "not found")

/-- The five users of the toy Grafana. -/
def demoUsers : List User :=
  [{ Login := "ann", Name := "Ann", OrgID := 1 }, { Login := "bob", Name := "Bob", OrgID := 1 },
   { Login := "cy", Name := "Cy", OrgID := 2 }, { Login := "dee", Name := "Dee", OrgID := 2 },
   { Login := "eve", Name := "Eve", OrgID := 3 }]

/-- The three datasources of the toy Grafana. -/
def demoDatasources : List Datasource :=
  [{ Name := "prometheus", OrgID := 1 }, { Name := "graphite", OrgID := 1 },
   { Name := "loki", OrgID := 2 }]

/-- The toy Grafana. -/
def demoClient : Client :=
  { SearchDashboards := fun _ _ _ =>
      .ok [{ URI := "db/one" }, { URI := "db/gone" }, { URI := "db/bad" }]
    GetRawDashboardBySlug := demoFetch
    GetAllUsers := .ok demoUsers
    GetAllDatasources := .ok demoDatasources }

/-- A non-hierarchical request for all three passes. -/
def demoCommand : Command :=
  { applyHierarchically := false, applyForBoards := true, applyForDs := true
    applyForUsers := true, boardTitle := "", starred := false, tags := [], verbose := false
    grafana := demoClient }

/-- The runtime of the examples: the in-memory filesystem, no signal, output in `out`. -/
def demoRuntime : Runtime MemFS :=
  { os := memOS
    cancel := fun _ => false
    jsonUnmarshalBoard := demoUnmarshal
    jsonMarshalUser := demoMarshalUser
    jsonMarshalDatasource := demoMarshalDatasource
    slugMake := fun s => s
    Sprintf := goSprintf
    flagDir := "out" }

/-- The world at the start of a run on the filesystem `fs`. -/
def startWorld (fs : MemFS) : World MemFS :=
  { fs := fs, polls := 0, trace := [] }

/-- A toy `json.Unmarshal` that, like `encoding/json`, writes into the variable it is
given field by field.  Document `[3]` holds a row with a panel on `graphite` and then a
field of the wrong type: the rows are stored and an error is returned.  Document `[4]`
holds a title and no rows: the title is stored, the rows of the variable stay as they
are, and no error is returned.  Anything else fails and stores nothing. -/
def staleUnmarshal (data : Bytes) (board : Board) : Board × Option GoError :=
  if data = [3] then
    ({ board with Rows := [{ Panels := [{ Datasource := some "graphite" }] }] },
     some (.other "json: cannot unmarshal number into Go struct field Board.title"))
  else if data = [4] then ({ board with Title := "norows" }, none)
  else (board, some (.other "invalid character"))

/-- A hierarchical request on a Grafana with the two dashboards `db/half` (document
`[3]`) and `db/norows` (document `[4]`) and the three toy datasources. -/
def staleCommand : Command :=
  { demoCommand with
    applyHierarchically := true
    grafana :=
      { SearchDashboards := fun _ _ _ => .ok [{ URI := "db/half" }, { URI := "db/norows" }]
        GetRawDashboardBySlug := fun uri =>
          if uri = "db/half" then .ok ([3], { Slug := "half" })
          else if uri = "db/norows" then .ok ([4], { Slug := "norows" })
          else .error (.other "not found")
        GetAllUsers := .ok demoUsers
        GetAllDatasources := .ok demoDatasources } }

/-- The toy runtime with the field-by-field codec. -/
def staleRuntime : Runtime MemFS :=
  { demoRuntime with jsonUnmarshalBoard := staleUnmarshal }

/-! ## Traces -/

section Traces

variable {σ : Type}

@[simp] theorem writesAttempted_append (a b : List Event) :
    writesAttempted (a ++ b) = writesAttempted a ++ writesAttempted b := by
  simp [writesAttempted]

@[simp] theorem filesWritten_append (a b : List Event) :
    filesWritten (a ++ b) = filesWritten a ++ filesWritten b := by
  simp [filesWritten]

@[simp] theorem writesFailed_append (a b : List Event) :
    writesFailed (a ++ b) = writesFailed a ++ writesFailed b := by
  simp [writesFailed]

@[simp] theorem callsOf_append (a b : List Event) :
    callsOf (a ++ b) = callsOf a ++ callsOf b := by
  simp [callsOf]

@[simp] theorem fetchesOf_append (a b : List Event) :
    fetchesOf (a ++ b) = fetchesOf a ++ fetchesOf b := by
  simp [fetchesOf]

@[simp] theorem unmarshalsOf_append (a b : List Event) :
    unmarshalsOf (a ++ b) = unmarshalsOf a ++ unmarshalsOf b := by
  simp [unmarshalsOf]

/-- A trace without failed writes has written everything it attempted. -/
theorem filesWritten_eq_attempted (tr : List Event) (h : writesFailed tr = []) :
    filesWritten tr = writesAttempted tr := by
  induction tr with
  | nil => rfl
  | cons e es ih =>
    cases e with
    | WriteFile p d perm err =>
      cases err with
      | none =>
        have h' : writesFailed es = [] := by simpa [writesFailed, Event.failed?] using h
        simp [filesWritten, writesAttempted, Event.written?, Event.attempt?] at ih ⊢
        exact ih h'
      | some e => simp [writesFailed, Event.failed?] at h
    | _ =>
      have h' : writesFailed es = [] := by simpa [writesFailed, Event.failed?] using h
      simpa [filesWritten, writesAttempted, Event.written?, Event.attempt?] using ih h'

end Traces

/-! ## The loop -/

section Loop

variable {σ ι L : Type}

theorem runBodies_polls {body : ι → L → World σ → L × World σ} (hp : PollsFixed body) :
    ∀ (items : List ι) (l : L) (w : World σ),
      (runBodies body items l w).2.polls = w.polls + items.length := by
  intro items
  induction items with
  | nil => intro l w; simp [runBodies]
  | cons x xs ih =>
    intro l w
    simp only [runBodies, List.length_cons]
    rw [ih, hp]
    simp only [World.poll]
    omega

theorem runBodies_grows {body : ι → L → World σ → L × World σ} (hg : TraceGrows body) :
    ∀ (items : List ι) (l : L) (w : World σ),
      ∃ δ, (runBodies body items l w).2.trace = w.trace ++ δ := by
  intro items
  induction items with
  | nil => intro l w; exact ⟨[], by simp [runBodies]⟩
  | cons x xs ih =>
    intro l w
    obtain ⟨δ₁, h₁⟩ := hg x l w.poll
    obtain ⟨δ₂, h₂⟩ := ih (body x l w.poll).1 (body x l w.poll).2
    refine ⟨δ₁ ++ δ₂, ?_⟩
    simp only [runBodies]
    rw [h₂, h₁]
    simp [World.poll]

/-- A projection of the trace to which every body adds a list that depends on the
item only collects these lists in order. -/
theorem runBodies_proj {β : Type} {body : ι → L → World σ → L × World σ}
    (f : Event → Option β) (d : ι → List β)
    (hbody : ∀ x l w, (body x l w).2.trace.filterMap f = w.trace.filterMap f ++ d x) :
    ∀ (items : List ι) (l : L) (w : World σ),
      (runBodies body items l w).2.trace.filterMap f
        = w.trace.filterMap f ++ (items.map d).flatten := by
  intro items
  induction items with
  | nil => intro l w; simp [runBodies]
  | cons x xs ih =>
    intro l w
    simp only [runBodies]
    rw [ih, hbody]
    simp [World.poll]

/-- The variables a loop carries are a fold over the items when no body reads the
world to compute them. -/
theorem runBodies_vars {body : ι → L → World σ → L × World σ} (step : L → ι → L)
    (hbody : ∀ x l w, (body x l w).1 = step l x) :
    ∀ (items : List ι) (l : L) (w : World σ),
      (runBodies body items l w).1 = items.foldl step l := by
  intro items
  induction items with
  | nil => intro l w; simp [runBodies]
  | cons x xs ih =>
    intro l w
    simp only [runBodies, List.foldl_cons]
    rw [ih, hbody]

/-- With no signal at any of its polls the loop returns after running every body. -/
theorem rangeSelect_eq_runBodies (rt : Runtime σ) {body : ι → L → World σ → L × World σ}
    (hp : PollsFixed body) :
    ∀ (items : List ι) (l : L) (w : World σ),
      (∀ i, i < items.length → rt.cancel (w.polls + i) = false) →
      rangeSelect rt body items l w
        = .returned (runBodies body items l w).1 (runBodies body items l w).2 := by
  intro items
  induction items with
  | nil => intro l w _; simp [rangeSelect, runBodies]
  | cons x xs ih =>
    intro l w hc
    have h0 : rt.cancel w.polls = false := by simpa using hc 0 (by simp)
    simp only [rangeSelect, runBodies, h0]
    apply ih
    intro i hi
    rw [hp]
    have := hc (i + 1) (by simpa using hi)
    simpa [World.poll, Nat.add_assoc, Nat.add_comm 1 i] using this

/-- With the first signal at poll `k` the loop runs the bodies of the first `k`
items and halts at the next poll. -/
theorem rangeSelect_cancelled (rt : Runtime σ) {body : ι → L → World σ → L × World σ}
    (hp : PollsFixed body) :
    ∀ (k : Nat) (items : List ι) (l : L) (w : World σ),
      k < items.length →
      (∀ i, i < k → rt.cancel (w.polls + i) = false) →
      rt.cancel (w.polls + k) = true →
      rangeSelect rt body items l w
        = .halted .exitBySignal (runBodies body (items.take k) l w).2.poll := by
  intro k
  induction k with
  | zero =>
    intro items l w hk _ hc
    cases items with
    | nil => simp at hk
    | cons x xs =>
      have h0 : rt.cancel w.polls = true := by simpa using hc
      simp [rangeSelect, runBodies, h0, exitBySignal]
  | succ k ih =>
    intro items l w hk hlt hc
    cases items with
    | nil => simp at hk
    | cons x xs =>
      have h0 : rt.cancel w.polls = false := by simpa using hlt 0 (by omega)
      simp only [rangeSelect, runBodies, h0, List.take_succ_cons]
      apply ih
      · simpa using hk
      · intro i hi
        rw [hp]
        have := hlt (i + 1) (by omega)
        simpa [World.poll, Nat.add_assoc, Nat.add_comm 1 i] using this
      · rw [hp]
        simpa [World.poll, Nat.add_assoc, Nat.add_comm 1 k] using hc

end Loop

/-! ## The statements of `do-backup.go` -/

section Bodies

variable {σ : Type}

@[simp] theorem log_trace (w : World σ) (e : Event) : (w.log e).trace = w.trace ++ [e] := rfl

@[simp] theorem log_polls (w : World σ) (e : Event) : (w.log e).polls = w.polls := rfl

@[simp] theorem log_fs (w : World σ) (e : Event) : (w.log e).fs = w.fs := rfl

@[simp] theorem poll_trace (w : World σ) : w.poll.trace = w.trace := rfl

@[simp] theorem poll_polls (w : World σ) : w.poll.polls = w.polls + 1 := rfl

@[simp] theorem poll_fs (w : World σ) : w.poll.fs = w.fs := rfl

@[simp] theorem writeFile_trace (rt : Runtime σ) (fname : String) (data : Bytes) (w : World σ) :
    (writeFile rt fname data w).trace
      = w.trace ++ [.WriteFile fname data 0o666 (rt.os.WriteFile w.fs fname data 0o666).2] := rfl

@[simp] theorem writeFile_polls (rt : Runtime σ) (fname : String) (data : Bytes) (w : World σ) :
    (writeFile rt fname data w).polls = w.polls := rfl

/-- `VerifyOrCreateDir` adds a `Stat` and at most one `MkdirAll` to the trace. -/
theorem VerifyOrCreateDir_trace (os : OS σ) (dir : String) (w : World σ) :
    (VerifyOrCreateDir os dir w).2.trace = w.trace ++ [.Stat dir] ∨
    ∃ err, (VerifyOrCreateDir os dir w).2.trace
      = w.trace ++ [.Stat dir, .MkdirAll dir 0o755 err] := by
  unfold VerifyOrCreateDir
  simp only [log_fs, log_trace]
  split
  · split <;> simp
  · split
    · right; exact ⟨(os.MkdirAll w.fs dir 0o755).2, by simp⟩
    · simp

@[simp] theorem VerifyOrCreateDir_polls (os : OS σ) (dir : String) (w : World σ) :
    (VerifyOrCreateDir os dir w).2.polls = w.polls := by
  unfold VerifyOrCreateDir
  simp only [log_fs]
  split
  · split <;> rfl
  · split <;> rfl

theorem VerifyOrCreateDir_grows (os : OS σ) (dir : String) (w : World σ) :
    ∃ δ, (VerifyOrCreateDir os dir w).2.trace = w.trace ++ δ := by
  rcases VerifyOrCreateDir_trace os dir w with h | ⟨err, h⟩
  · exact ⟨_, h⟩
  · exact ⟨_, h⟩

/-- `VerifyOrCreateDir` leaves every projection that ignores `Stat` and `MkdirAll`
unchanged. -/
theorem VerifyOrCreateDir_proj {β : Type} (f : Event → Option β)
    (hs : ∀ p, f (.Stat p) = none) (hm : ∀ p perm err, f (.MkdirAll p perm err) = none)
    (os : OS σ) (dir : String) (w : World σ) :
    (VerifyOrCreateDir os dir w).2.trace.filterMap f = w.trace.filterMap f := by
  rcases VerifyOrCreateDir_trace os dir w with h | ⟨err, h⟩ <;> simp [h, hs, hm]

/-! ### The body of the user loop -/

theorem userBody_polls (rt : Runtime σ) : PollsFixed (userBody rt) := by
  intro u l w; rfl

theorem userBody_trace (rt : Runtime σ) (u : User) (l : Unit) (w : World σ) :
    (userBody rt u l w).2.trace
      = w.trace ++ [.WriteFile (userFname rt u) (rt.jsonMarshalUser u).1 0o666
          (rt.os.WriteFile w.fs (userFname rt u) (rt.jsonMarshalUser u).1 0o666).2] := rfl

theorem userBody_grows (rt : Runtime σ) : TraceGrows (userBody rt) := by
  intro u l w; exact ⟨_, userBody_trace rt u l w⟩

/-! ### The body of the datasource loop -/

theorem datasourceBody_cases (rt : Runtime σ) (filter : Option GoMap) (ds : Datasource)
    (l : Unit) (w : World σ) :
    (datasourceWrite rt filter ds = none ∧ (datasourceBody rt filter ds l w).2 = w) ∨
    (∃ raw, datasourceWrite rt filter ds = some (datasourceFname rt ds, raw) ∧
      datasourceKept filter ds = true ∧ rt.jsonMarshalDatasource ds = (raw, none) ∧
      (datasourceBody rt filter ds l w).2 = writeFile rt (datasourceFname rt ds) raw w) := by
  unfold datasourceBody datasourceWrite datasourceKept
  cases filter with
  | none =>
    rcases hm : rt.jsonMarshalDatasource ds with ⟨raw, _ | e⟩
    · right; exact ⟨raw, by simp⟩
    · left; simp
  | some m =>
    cases hk : m.has ds.Name
    · left; simp [hk]
    · rcases hm : rt.jsonMarshalDatasource ds with ⟨raw, _ | e⟩
      · right; exact ⟨raw, by simp [hk]⟩
      · left; simp [hk]

theorem datasourceBody_polls (rt : Runtime σ) (filter : Option GoMap) :
    PollsFixed (datasourceBody rt filter) := by
  intro ds l w
  rcases datasourceBody_cases rt filter ds l w with ⟨_, h⟩ | ⟨raw, _, _, _, h⟩ <;> rw [h]
  rfl

theorem datasourceBody_grows (rt : Runtime σ) (filter : Option GoMap) :
    TraceGrows (datasourceBody rt filter) := by
  intro ds l w
  rcases datasourceBody_cases rt filter ds l w with ⟨_, h⟩ | ⟨raw, _, _, _, h⟩ <;> rw [h]
  · exact ⟨[], by simp⟩
  · exact ⟨_, writeFile_trace _ _ _ _⟩

theorem datasourceBody_attempts (rt : Runtime σ) (filter : Option GoMap) (ds : Datasource)
    (l : Unit) (w : World σ) :
    (datasourceBody rt filter ds l w).2.trace.filterMap Event.attempt?
      = w.trace.filterMap Event.attempt? ++ (datasourceWrite rt filter ds).toList := by
  rcases datasourceBody_cases rt filter ds l w with ⟨h₁, h⟩ | ⟨raw, h₁, _, _, h⟩ <;>
    rw [h, h₁] <;> simp [Event.attempt?]

/-! ### The body of the dashboard loop -/

theorem dashboardBody_cases (rt : Runtime σ) (cmd : Command) (link : FoundBoard)
    (l : DashVars) (w : World σ) :
    (dashboardWrite rt cmd link = none ∧
      (∃ e, cmd.grafana.GetRawDashboardBySlug link.URI = .error e) ∧
      (dashboardBody rt cmd link l w).2.trace
        = w.trace ++ [.GetRawDashboardBySlug link.URI]) ∨
    (∃ raw props err, cmd.grafana.GetRawDashboardBySlug link.URI = .ok (raw, props) ∧
      dashboardWrite rt cmd link = some (dashboardFname rt props.Slug, raw) ∧
      (dashboardBody rt cmd link l w).2.trace
        = w.trace ++ .GetRawDashboardBySlug link.URI ::
            ((if cmd.applyHierarchically then [Event.Unmarshal raw] else []) ++
              [.WriteFile (dashboardFname rt props.Slug) raw 0o666 err])) := by
  unfold dashboardBody dashboardWrite
  rcases hf : cmd.grafana.GetRawDashboardBySlug link.URI with e | ⟨raw, props⟩
  · left; exact ⟨rfl, ⟨e, rfl⟩, rfl⟩
  · right
    refine ⟨raw, props, ?_⟩
    refine ⟨(rt.os.WriteFile w.fs (dashboardFname rt props.Slug) raw 0o666).2, rfl, rfl, ?_⟩
    cases hh : cmd.applyHierarchically
    · simp
    · rcases hu : (rt.jsonUnmarshalBoard raw l.board).2 with _ | e <;> simp [hu]

theorem dashboardBody_polls (rt : Runtime σ) (cmd : Command) :
    PollsFixed (dashboardBody rt cmd) := by
  intro link l w
  unfold dashboardBody
  rcases hf : cmd.grafana.GetRawDashboardBySlug link.URI with e | ⟨raw, props⟩
  · rfl
  · cases hh : cmd.applyHierarchically
    · simp
    · rcases hu : (rt.jsonUnmarshalBoard raw l.board).2 with _ | e <;> simp [hu]

theorem dashboardBody_grows (rt : Runtime σ) (cmd : Command) :
    TraceGrows (dashboardBody rt cmd) := by
  intro link l w
  rcases dashboardBody_cases rt cmd link l w with ⟨_, _, h⟩ | ⟨raw, props, err, _, _, h⟩
  · exact ⟨_, h⟩
  · exact ⟨_, h⟩

theorem dashboardBody_attempts (rt : Runtime σ) (cmd : Command) (link : FoundBoard)
    (l : DashVars) (w : World σ) :
    (dashboardBody rt cmd link l w).2.trace.filterMap Event.attempt?
      = w.trace.filterMap Event.attempt? ++ (dashboardWrite rt cmd link).toList := by
  rcases dashboardBody_cases rt cmd link l w with ⟨h₁, _, h⟩ | ⟨raw, props, err, _, h₁, h⟩
  · rw [h, h₁]; simp [Event.attempt?]
  · rw [h, h₁]; cases cmd.applyHierarchically <;> simp [Event.attempt?]

theorem dashboardBody_fetches (rt : Runtime σ) (cmd : Command) (link : FoundBoard)
    (l : DashVars) (w : World σ) :
    (dashboardBody rt cmd link l w).2.trace.filterMap Event.fetch?
      = w.trace.filterMap Event.fetch? ++ [link.URI] := by
  rcases dashboardBody_cases rt cmd link l w with ⟨h₁, _, h⟩ | ⟨raw, props, err, _, h₁, h⟩
  · rw [h]; simp [Event.fetch?]
  · rw [h]; cases cmd.applyHierarchically <;> simp [Event.fetch?]

theorem dashboardBody_vars (rt : Runtime σ) (cmd : Command) (link : FoundBoard)
    (l : DashVars) (w : World σ) :
    (dashboardBody rt cmd link l w).1 = referenceStep rt cmd l link := by
  unfold dashboardBody referenceStep
  rcases hf : cmd.grafana.GetRawDashboardBySlug link.URI with e | ⟨raw, props⟩
  · rfl
  · cases hh : cmd.applyHierarchically
    · simp
    · rcases hu : rt.jsonUnmarshalBoard raw l.board with ⟨b, _ | e⟩ <;> simp [hu]

end Bodies

section Passes

variable {σ : Type}

theorem flatten_map_toList {α β : Type} (g : α → Option β) (items : List α) :
    (items.map (fun x => (g x).toList)).flatten = items.filterMap g := by
  induction items with
  | nil => rfl
  | cons x xs ih =>
    cases h : g x <;> simp [List.filterMap_cons, h, ih]

theorem flatten_map_singleton {α β : Type} (g : α → β) (items : List α) :
    (items.map (fun x => [g x])).flatten = items.map g := by
  induction items with
  | nil => rfl
  | cons x xs ih => simp [ih]

theorem flatten_map_nil {α β : Type} (items : List α) :
    (items.map (fun _ => ([] : List β))).flatten = [] := by
  induction items with
  | nil => rfl
  | cons x xs ih => simp [ih]

/-- The projection of what a run added, from the projection of the whole trace. -/
theorem proj_added {β : Type} (f : Event → Option β) {t t₀ δ : List Event} {X : List β}
    (ht : t = t₀ ++ δ) (hp : t.filterMap f = t₀.filterMap f ++ X) : δ.filterMap f = X := by
  rw [ht, List.filterMap_append] at hp
  exact List.append_cancel_left hp

theorem eventsOf_eq {α : Type} (w : World σ) (o : Outcome σ α) {δ : List Event}
    (h : o.world.trace = w.trace ++ δ) : eventsOf w o = δ := by
  simp [eventsOf, h]

/-! ### Projections of the loop bodies -/

theorem userBody_proj {β : Type} (rt : Runtime σ) (f : Event → Option β)
    (hf : ∀ p d perm err, f (.WriteFile p d perm err) = none)
    (u : User) (l : Unit) (w : World σ) :
    (userBody rt u l w).2.trace.filterMap f = w.trace.filterMap f ++ [] := by
  rw [userBody_trace]; simp [hf]

theorem datasourceBody_proj {β : Type} (rt : Runtime σ) (filter : Option GoMap)
    (f : Event → Option β) (hf : ∀ p d perm err, f (.WriteFile p d perm err) = none)
    (ds : Datasource) (l : Unit) (w : World σ) :
    (datasourceBody rt filter ds l w).2.trace.filterMap f = w.trace.filterMap f ++ [] := by
  rcases datasourceBody_cases rt filter ds l w with ⟨_, h⟩ | ⟨raw, _, _, _, h⟩ <;>
    rw [h] <;> simp [hf]

theorem dashboardBody_calls (rt : Runtime σ) (cmd : Command) (link : FoundBoard)
    (l : DashVars) (w : World σ) :
    (dashboardBody rt cmd link l w).2.trace.filterMap Event.call?
      = w.trace.filterMap Event.call? ++ [] := by
  rcases dashboardBody_cases rt cmd link l w with ⟨h₁, _, h⟩ | ⟨raw, props, err, _, h₁, h⟩
  · rw [h]; simp [Event.call?]
  · rw [h]; cases cmd.applyHierarchically <;> simp [Event.call?]

theorem dashboardBody_unmarshals (rt : Runtime σ) (cmd : Command) (link : FoundBoard)
    (l : DashVars) (w : World σ) :
    (dashboardBody rt cmd link l w).2.trace.filterMap Event.unmarshal?
      = w.trace.filterMap Event.unmarshal? ++
          (if cmd.applyHierarchically then (fetchedDocument cmd link).toList else []) := by
  rcases dashboardBody_cases rt cmd link l w with ⟨_, ⟨e, he⟩, h⟩ | ⟨raw, props, err, hf, _, h⟩
  · rw [h]; simp [Event.unmarshal?, fetchedDocument, he]
  · rw [h]; cases cmd.applyHierarchically <;> simp [Event.unmarshal?, fetchedDocument, hf]

theorem flatten_map_ite {α β : Type} (c : Bool) (g : α → Option β) (items : List α) :
    (items.map (fun x => if c then (g x).toList else [])).flatten
      = if c then items.filterMap g else [] := by
  cases c
  · simp
  · simpa using flatten_map_toList g items

/-! ### A pass up to the end of its loop -/

theorem loopStart_polls (rt : Runtime σ) (e₁ e₂ : Event) (w : World σ) :
    (loopStart rt e₁ e₂ w).polls = w.polls := by
  simp [loopStart]

/-- What a pass has added to the trace when the bodies of its loop have run over
`items`: under every projection that ignores `Stat` and `MkdirAll`, the two entry
events followed by what the bodies add. -/
theorem loopStart_runBodies {ι L : Type} (rt : Runtime σ)
    {body : ι → L → World σ → L × World σ} (hp : PollsFixed body) (hg : TraceGrows body)
    (e₁ e₂ : Event) (items : List ι) (l : L) (w : World σ) :
    ∃ δ, (runBodies body items l (loopStart rt e₁ e₂ w)).2.trace = w.trace ++ δ ∧
      (runBodies body items l (loopStart rt e₁ e₂ w)).2.polls = w.polls + items.length ∧
      ∀ {β : Type} (f : Event → Option β) (d : ι → List β),
        (∀ p, f (.Stat p) = none) → (∀ p perm err, f (.MkdirAll p perm err) = none) →
        (∀ x l w, (body x l w).2.trace.filterMap f = w.trace.filterMap f ++ d x) →
        δ.filterMap f = [e₁, e₂].filterMap f ++ (items.map d).flatten := by
  obtain ⟨δ₀, hδ₀⟩ := VerifyOrCreateDir_grows rt.os rt.flagDir ((w.log e₁).log e₂)
  obtain ⟨δ₁, hδ₁⟩ := runBodies_grows hg items l (loopStart rt e₁ e₂ w)
  have ht : (runBodies body items l (loopStart rt e₁ e₂ w)).2.trace
      = w.trace ++ ([e₁, e₂] ++ δ₀ ++ δ₁) := by
    rw [hδ₁, loopStart, hδ₀]; simp
  refine ⟨_, ht, ?_, ?_⟩
  · rw [runBodies_polls hp, loopStart_polls]
  · intro β f d hs hm hbody
    apply proj_added f ht
    rw [runBodies_proj f d hbody, loopStart, VerifyOrCreateDir_proj f hs hm]
    simp

/-! ### The user pass -/

theorem backupUsers_ok (rt : Runtime σ) (cmd : Command) (w : World σ) (users : List User)
    (hlist : cmd.grafana.GetAllUsers = .ok users) :
    backupUsers rt cmd w
      = rangeSelect rt (userBody rt) users ()
          (loopStart rt (.call .backupUsers) .GetAllUsers w) := by
  simp [backupUsers, hlist, loopStart]

theorem backupUsers_error (rt : Runtime σ) (cmd : Command) (w : World σ) (e : GoError)
    (hlist : cmd.grafana.GetAllUsers = .error e) :
    backupUsers rt cmd w = .returned () ((w.log (.call .backupUsers)).log .GetAllUsers) := by
  simp [backupUsers, hlist]

/-- What the user pass adds to the trace while its loop runs over `users`. -/
theorem userLoop_added (rt : Runtime σ) (users : List User) (w : World σ) :
    ∃ δ, (runBodies (userBody rt) users ()
        (loopStart rt (.call .backupUsers) .GetAllUsers w)).2.trace = w.trace ++ δ ∧
      (runBodies (userBody rt) users ()
        (loopStart rt (.call .backupUsers) .GetAllUsers w)).2.polls = w.polls + users.length ∧
      writesAttempted δ = users.map (userWrite rt) ∧
      callsOf δ = [.backupUsers] ∧ fetchesOf δ = [] ∧ unmarshalsOf δ = [] := by
  obtain ⟨δ, ht, hpolls, hproj⟩ := loopStart_runBodies rt (userBody_polls rt)
    (userBody_grows rt) (.call .backupUsers) .GetAllUsers users () w
  refine ⟨δ, ht, hpolls, ?_, ?_, ?_, ?_⟩
  · rw [writesAttempted, hproj Event.attempt? (fun u => [userWrite rt u]) (fun _ => rfl)
      (fun _ _ _ => rfl)
      (fun u l w => by rw [userBody_trace rt u l w]; simp [Event.attempt?, userWrite]),
      flatten_map_singleton]
    simp [Event.attempt?]
  · rw [callsOf, hproj Event.call? (fun _ => []) (fun _ => rfl) (fun _ _ _ => rfl)
      (userBody_proj rt Event.call? (fun _ _ _ _ => rfl)), flatten_map_nil]
    simp [Event.call?]
  · rw [fetchesOf, hproj Event.fetch? (fun _ => []) (fun _ => rfl) (fun _ _ _ => rfl)
      (userBody_proj rt Event.fetch? (fun _ _ _ _ => rfl)), flatten_map_nil]
    simp [Event.fetch?]
  · rw [unmarshalsOf, hproj Event.unmarshal? (fun _ => []) (fun _ => rfl) (fun _ _ _ => rfl)
      (userBody_proj rt Event.unmarshal? (fun _ _ _ _ => rfl)), flatten_map_nil]
    simp [Event.unmarshal?]

/-- The user pass without a signal: it returns, having made one poll for each user and
attempted one write for each user. -/
theorem backupUsers_run (rt : Runtime σ) (cmd : Command) (w : World σ) (users : List User)
    (hlist : cmd.grafana.GetAllUsers = .ok users)
    (hc : ∀ i, i < users.length → rt.cancel (w.polls + i) = false) :
    ∃ w' δ, backupUsers rt cmd w = .returned () w' ∧ w'.trace = w.trace ++ δ ∧
      w'.polls = w.polls + users.length ∧
      writesAttempted δ = users.map (userWrite rt) ∧
      callsOf δ = [.backupUsers] ∧ fetchesOf δ = [] ∧ unmarshalsOf δ = [] := by
  obtain ⟨δ, h⟩ := userLoop_added rt users w
  refine ⟨_, δ, ?_, h⟩
  rw [backupUsers_ok rt cmd w users hlist,
    rangeSelect_eq_runBodies rt (userBody_polls rt) users () _
      (by rw [loopStart_polls]; exact hc)]

/-- The user pass with the first signal at its poll `k`: it halts there, in the world
the loop over the first `k` users ends in. -/
theorem backupUsers_cancelled (rt : Runtime σ) (cmd : Command) (w : World σ)
    (users : List User) (k : Nat)
    (hlist : cmd.grafana.GetAllUsers = .ok users) (hk : k < users.length)
    (hc : ∀ i, i < k → rt.cancel (w.polls + i) = false)
    (hs : rt.cancel (w.polls + k) = true) :
    backupUsers rt cmd w
      = .halted .exitBySignal (runBodies (userBody rt) (users.take k) ()
          (loopStart rt (.call .backupUsers) .GetAllUsers w)).2.poll := by
  rw [backupUsers_ok rt cmd w users hlist]
  exact rangeSelect_cancelled rt (userBody_polls rt) k users () _ hk
    (by rw [loopStart_polls]; exact hc) (by rw [loopStart_polls]; exact hs)

/-! ### The datasource pass -/

theorem backupDatasources_ok (rt : Runtime σ) (cmd : Command) (filter : Option GoMap)
    (w : World σ) (all : List Datasource) (hlist : cmd.grafana.GetAllDatasources = .ok all) :
    backupDatasources rt cmd filter w
      = rangeSelect rt (datasourceBody rt filter) all ()
          (loopStart rt (.call (.backupDatasources filter)) .GetAllDatasources w) := by
  simp [backupDatasources, hlist, loopStart]

theorem backupDatasources_error (rt : Runtime σ) (cmd : Command) (filter : Option GoMap)
    (w : World σ) (e : GoError) (hlist : cmd.grafana.GetAllDatasources = .error e) :
    backupDatasources rt cmd filter w
      = .returned () ((w.log (.call (.backupDatasources filter))).log .GetAllDatasources) := by
  simp [backupDatasources, hlist]

/-- What the datasource pass adds to the trace while its loop runs over `all`. -/
theorem datasourceLoop_added (rt : Runtime σ) (filter : Option GoMap)
    (all : List Datasource) (w : World σ) :
    ∃ δ, (runBodies (datasourceBody rt filter) all ()
        (loopStart rt (.call (.backupDatasources filter)) .GetAllDatasources w)).2.trace
          = w.trace ++ δ ∧
      (runBodies (datasourceBody rt filter) all ()
        (loopStart rt (.call (.backupDatasources filter)) .GetAllDatasources w)).2.polls
          = w.polls + all.length ∧
      writesAttempted δ = all.filterMap (datasourceWrite rt filter) ∧
      callsOf δ = [.backupDatasources filter] ∧ fetchesOf δ = [] ∧ unmarshalsOf δ = [] := by
  obtain ⟨δ, ht, hpolls, hproj⟩ := loopStart_runBodies rt (datasourceBody_polls rt filter)
    (datasourceBody_grows rt filter) (.call (.backupDatasources filter)) .GetAllDatasources
    all () w
  refine ⟨δ, ht, hpolls, ?_, ?_, ?_, ?_⟩
  · rw [writesAttempted, hproj Event.attempt? (fun ds => (datasourceWrite rt filter ds).toList)
      (fun _ => rfl) (fun _ _ _ => rfl) (datasourceBody_attempts rt filter),
      flatten_map_toList]
    simp [Event.attempt?]
  · rw [callsOf, hproj Event.call? (fun _ => []) (fun _ => rfl) (fun _ _ _ => rfl)
      (datasourceBody_proj rt filter Event.call? (fun _ _ _ _ => rfl)), flatten_map_nil]
    simp [Event.call?]
  · rw [fetchesOf, hproj Event.fetch? (fun _ => []) (fun _ => rfl) (fun _ _ _ => rfl)
      (datasourceBody_proj rt filter Event.fetch? (fun _ _ _ _ => rfl)), flatten_map_nil]
    simp [Event.fetch?]
  · rw [unmarshalsOf, hproj Event.unmarshal? (fun _ => []) (fun _ => rfl) (fun _ _ _ => rfl)
      (datasourceBody_proj rt filter Event.unmarshal? (fun _ _ _ _ => rfl)), flatten_map_nil]
    simp [Event.unmarshal?]

/-- The datasource pass without a signal: it returns, having made one poll for each
listed datasource and attempted the write of each one that is kept and serialized. -/
theorem backupDatasources_run (rt : Runtime σ) (cmd : Command) (filter : Option GoMap)
    (w : World σ) (all : List Datasource) (hlist : cmd.grafana.GetAllDatasources = .ok all)
    (hc : ∀ i, i < all.length → rt.cancel (w.polls + i) = false) :
    ∃ w' δ, backupDatasources rt cmd filter w = .returned () w' ∧ w'.trace = w.trace ++ δ ∧
      w'.polls = w.polls + all.length ∧
      writesAttempted δ = all.filterMap (datasourceWrite rt filter) ∧
      callsOf δ = [.backupDatasources filter] ∧ fetchesOf δ = [] ∧ unmarshalsOf δ = [] := by
  obtain ⟨δ, h⟩ := datasourceLoop_added rt filter all w
  refine ⟨_, δ, ?_, h⟩
  rw [backupDatasources_ok rt cmd filter w all hlist,
    rangeSelect_eq_runBodies rt (datasourceBody_polls rt filter) all () _
      (by rw [loopStart_polls]; exact hc)]

/-- The datasource pass with the first signal at its poll `k`. -/
theorem backupDatasources_cancelled (rt : Runtime σ) (cmd : Command) (filter : Option GoMap)
    (w : World σ) (all : List Datasource) (k : Nat)
    (hlist : cmd.grafana.GetAllDatasources = .ok all) (hk : k < all.length)
    (hc : ∀ i, i < k → rt.cancel (w.polls + i) = false)
    (hs : rt.cancel (w.polls + k) = true) :
    backupDatasources rt cmd filter w
      = .halted .exitBySignal (runBodies (datasourceBody rt filter) (all.take k) ()
          (loopStart rt (.call (.backupDatasources filter)) .GetAllDatasources w)).2.poll := by
  rw [backupDatasources_ok rt cmd filter w all hlist]
  exact rangeSelect_cancelled rt (datasourceBody_polls rt filter) k all () _ hk
    (by rw [loopStart_polls]; exact hc) (by rw [loopStart_polls]; exact hs)

/-- Whatever the list call returns, the datasource pass returns when no signal
arrives, and enters no other pass. -/
theorem backupDatasources_returns (rt : Runtime σ) (cmd : Command) (filter : Option GoMap)
    (w : World σ) (hc : ∀ i, rt.cancel i = false) :
    ∃ w' δ, backupDatasources rt cmd filter w = .returned () w' ∧ w'.trace = w.trace ++ δ ∧
      callsOf δ = [.backupDatasources filter] ∧ fetchesOf δ = [] ∧ unmarshalsOf δ = [] := by
  rcases hlist : cmd.grafana.GetAllDatasources with e | all
  · exact ⟨_, [.call (.backupDatasources filter), .GetAllDatasources],
      backupDatasources_error rt cmd filter w e hlist, by simp, rfl, rfl, rfl⟩
  · obtain ⟨w', δ, h₁, h₂, _, _, h₃⟩ :=
      backupDatasources_run rt cmd filter w all hlist (fun i _ => hc _)
    exact ⟨w', δ, h₁, h₂, h₃⟩

/-- Whatever the list call returns, the user pass returns when no signal arrives, and
enters no other pass. -/
theorem backupUsers_returns (rt : Runtime σ) (cmd : Command) (w : World σ)
    (hc : ∀ i, rt.cancel i = false) :
    ∃ w' δ, backupUsers rt cmd w = .returned () w' ∧ w'.trace = w.trace ++ δ ∧
      callsOf δ = [.backupUsers] ∧ fetchesOf δ = [] ∧ unmarshalsOf δ = [] := by
  rcases hlist : cmd.grafana.GetAllUsers with e | users
  · exact ⟨_, [.call .backupUsers, .GetAllUsers],
      backupUsers_error rt cmd w e hlist, by simp, rfl, rfl, rfl⟩
  · obtain ⟨w', δ, h₁, h₂, _, _, h₃⟩ := backupUsers_run rt cmd w users hlist (fun i _ => hc _)
    exact ⟨w', δ, h₁, h₂, h₃⟩

/-! ### The dashboard pass -/

theorem backupDashboards_error (rt : Runtime σ) (cmd : Command) (w : World σ) (e : GoError)
    (hsearch : cmd.grafana.SearchDashboards cmd.boardTitle cmd.starred cmd.tags = .error e) :
    backupDashboards rt cmd w
      = .halted (.osExit 1) ((w.log (.call .backupDashboards)).log
          (.SearchDashboards cmd.boardTitle cmd.starred cmd.tags)) := by
  simp [backupDashboards, hsearch]

theorem backupDashboards_ok (rt : Runtime σ) (cmd : Command) (w : World σ)
    (links : List FoundBoard)
    (hsearch : cmd.grafana.SearchDashboards cmd.boardTitle cmd.starred cmd.tags = .ok links) :
    backupDashboards rt cmd w
      = (rangeSelect rt (dashboardBody rt cmd) links { board := Board.zero, datasources := [] }
          (loopStart rt (.call .backupDashboards)
            (.SearchDashboards cmd.boardTitle cmd.starred cmd.tags) w)).andThen
          fun l w =>
            if cmd.applyHierarchically then backupDatasources rt cmd (some l.datasources) w
            else .returned () w := by
  simp [backupDashboards, hsearch, loopStart]

/-- What the dashboard pass adds to the trace while its loop runs over `links`, and
the reference set the loop ends with. -/
theorem dashboardLoop_added (rt : Runtime σ) (cmd : Command) (links : List FoundBoard)
    (w : World σ) :
    ∃ δ, (runBodies (dashboardBody rt cmd) links { board := Board.zero, datasources := [] }
        (loopStart rt (.call .backupDashboards)
          (.SearchDashboards cmd.boardTitle cmd.starred cmd.tags) w)).2.trace = w.trace ++ δ ∧
      (runBodies (dashboardBody rt cmd) links { board := Board.zero, datasources := [] }
        (loopStart rt (.call .backupDashboards)
          (.SearchDashboards cmd.boardTitle cmd.starred cmd.tags) w)).2.polls
            = w.polls + links.length ∧
      (runBodies (dashboardBody rt cmd) links { board := Board.zero, datasources := [] }
        (loopStart rt (.call .backupDashboards)
          (.SearchDashboards cmd.boardTitle cmd.starred cmd.tags) w)).1.datasources
            = referenceSet rt cmd links ∧
      writesAttempted δ = links.filterMap (dashboardWrite rt cmd) ∧
      callsOf δ = [.backupDashboards] ∧ fetchesOf δ = links.map FoundBoard.URI ∧
      unmarshalsOf δ
        = (if cmd.applyHierarchically then links.filterMap (fetchedDocument cmd) else []) := by
  obtain ⟨δ, ht, hpolls, hproj⟩ := loopStart_runBodies rt (dashboardBody_polls rt cmd)
    (dashboardBody_grows rt cmd) (.call .backupDashboards)
    (.SearchDashboards cmd.boardTitle cmd.starred cmd.tags) links
    { board := Board.zero, datasources := [] } w
  refine ⟨δ, ht, hpolls, ?_, ?_, ?_, ?_, ?_⟩
  · rw [runBodies_vars (referenceStep rt cmd) (dashboardBody_vars rt cmd)]; rfl
  · rw [writesAttempted, hproj Event.attempt? (fun link => (dashboardWrite rt cmd link).toList)
      (fun _ => rfl) (fun _ _ _ => rfl) (dashboardBody_attempts rt cmd), flatten_map_toList]
    simp [Event.attempt?]
  · rw [callsOf, hproj Event.call? (fun _ => []) (fun _ => rfl) (fun _ _ _ => rfl)
      (dashboardBody_calls rt cmd), flatten_map_nil]
    simp [Event.call?]
  · rw [fetchesOf, hproj Event.fetch? (fun link => [link.URI]) (fun _ => rfl)
      (fun _ _ _ => rfl) (dashboardBody_fetches rt cmd), flatten_map_singleton]
    simp [Event.fetch?]
  · rw [unmarshalsOf, hproj Event.unmarshal?
      (fun link => if cmd.applyHierarchically then (fetchedDocument cmd link).toList else [])
      (fun _ => rfl) (fun _ _ _ => rfl) (dashboardBody_unmarshals rt cmd), flatten_map_ite]
    simp [Event.unmarshal?]

/-- The dashboard pass without a signal during its loop: after the loop over the
search results it goes on, in hierarchical mode, to the datasource pass with the
accumulated reference set, and returns otherwise. -/
theorem backupDashboards_run (rt : Runtime σ) (cmd : Command) (w : World σ)
    (links : List FoundBoard)
    (hsearch : cmd.grafana.SearchDashboards cmd.boardTitle cmd.starred cmd.tags = .ok links)
    (hc : ∀ i, i < links.length → rt.cancel (w.polls + i) = false) :
    ∃ w' δ, w'.trace = w.trace ++ δ ∧ w'.polls = w.polls + links.length ∧
      backupDashboards rt cmd w
        = (if cmd.applyHierarchically then
            backupDatasources rt cmd (some (referenceSet rt cmd links)) w'
           else .returned () w') ∧
      writesAttempted δ = links.filterMap (dashboardWrite rt cmd) ∧
      callsOf δ = [.backupDashboards] ∧ fetchesOf δ = links.map FoundBoard.URI ∧
      unmarshalsOf δ
        = (if cmd.applyHierarchically then links.filterMap (fetchedDocument cmd) else []) := by
  obtain ⟨δ, ht, hpolls, hvars, h⟩ := dashboardLoop_added rt cmd links w
  refine ⟨_, δ, ht, hpolls, ?_, h⟩
  rw [backupDashboards_ok rt cmd w links hsearch,
    rangeSelect_eq_runBodies rt (dashboardBody_polls rt cmd) links _ _
      (by rw [loopStart_polls]; exact hc)]
  simp only [Outcome.andThen, hvars]

/-- The dashboard pass with the first signal at its poll `k`. -/
theorem backupDashboards_cancelled (rt : Runtime σ) (cmd : Command) (w : World σ)
    (links : List FoundBoard) (k : Nat)
    (hsearch : cmd.grafana.SearchDashboards cmd.boardTitle cmd.starred cmd.tags = .ok links)
    (hk : k < links.length)
    (hc : ∀ i, i < k → rt.cancel (w.polls + i) = false)
    (hs : rt.cancel (w.polls + k) = true) :
    backupDashboards rt cmd w
      = .halted .exitBySignal (runBodies (dashboardBody rt cmd) (links.take k)
          { board := Board.zero, datasources := [] }
          (loopStart rt (.call .backupDashboards)
            (.SearchDashboards cmd.boardTitle cmd.starred cmd.tags) w)).2.poll := by
  rw [backupDashboards_ok rt cmd w links hsearch,
    rangeSelect_cancelled rt (dashboardBody_polls rt cmd) k links _ _ hk
      (by rw [loopStart_polls]; exact hc) (by rw [loopStart_polls]; exact hs)]
  rfl

end Passes

section InMemory

theorem find_filter_ne (fs : MemFS) (p q : String) (h : p ≠ q) :
    (fs.filter (fun e => e.1 != q)).find? (fun e => e.1 == p)
      = fs.find? (fun e => e.1 == p) := by
  induction fs with
  | nil => rfl
  | cons e es ih =>
    rw [List.filter_cons]
    by_cases he : e.1 = q
    · have h₁ : (e.1 != q) = false := by simp [he]
      have h₂ : (e.1 == p) = false := by
        rw [beq_eq_false_iff_ne]
        intro hp
        exact h (hp.symm.trans he)
      simp only [h₁, Bool.false_eq_true, if_false, List.find?_cons, h₂, ih]
    · have h₁ : (e.1 != q) = true := by simp [he]
      simp only [h₁, if_true, List.find?_cons, ih]

theorem MemFS.lookup_put (fs : MemFS) (q : String) (n : Node) (p : String) :
    (fs.put q n).lookup p
      = if p = "." then some (.dir 0o755) else if p = q then some n else fs.lookup p := by
  unfold MemFS.lookup MemFS.put
  by_cases hdot : p = "."
  · simp [hdot]
  · simp only [hdot, if_false]
    by_cases hq : p = q
    · subst hq; simp [List.find?_cons]
    · have hq' : (q == p) = false := by
        rw [beq_eq_false_iff_ne]
        exact fun h => hq h.symm
      simp only [hq, if_false, List.find?_cons, hq', find_filter_ne fs p q hq]

/-- A successful `MkdirAll` on the in-memory filesystem leaves every node that existed
as it was, makes every path of the chain a directory, and gives the directories it
creates the permission bits asked for. -/
theorem memMkdirChain_creates (perm : Nat) :
    ∀ (chain : List String) (fs fs' : MemFS),
      memMkdirChain perm chain fs = (fs', none) →
      (∀ p n, fs.lookup p = some n → fs'.lookup p = some n) ∧
      (∀ p, p ∈ chain → ∃ m, fs'.lookup p = some (.dir m)) ∧
      (∀ p, p ∈ chain → fs.lookup p = none → fs'.lookup p = some (.dir perm)) := by
  intro chain
  induction chain with
  | nil =>
    intro fs fs' h
    simp only [memMkdirChain, Prod.mk.injEq, and_true] at h
    subst h
    refine ⟨fun _ _ h => h, ?_, ?_⟩
    · intro p hp; cases hp
    · intro p hp; cases hp
  | cons q rest ih =>
    intro fs fs' h
    unfold memMkdirChain at h
    rcases hl : fs.lookup q with _ | ⟨m⟩ | ⟨d, m⟩
    · rw [hl] at h
      obtain ⟨ha, hb, hc⟩ := ih _ _ h
      have hput : ∀ p n, fs.lookup p = some n → (fs.put q (.dir perm)).lookup p = some n := by
        intro p n hp
        rw [MemFS.lookup_put]
        by_cases hdot : p = "."
        · rw [← hp]; simp [hdot, MemFS.lookup]
        · have hq : p ≠ q := by
            intro hpq
            rw [hpq, hl] at hp
            cases hp
          simp [hdot, hq, hp]
      have hq : fs'.lookup q = some (.dir perm) := by
        apply ha
        rw [MemFS.lookup_put]
        have hdot : q ≠ "." := by
          intro hq
          rw [hq] at hl
          simp [MemFS.lookup] at hl
        simp [hdot]
      refine ⟨fun p n hp => ha p n (hput p n hp), ?_, ?_⟩
      · intro p hp
        rcases List.mem_cons.mp hp with rfl | hp
        · exact ⟨perm, hq⟩
        · exact hb p hp
      · intro p hp hnone
        by_cases hpq : p = q
        · rw [hpq]; exact hq
        · rcases List.mem_cons.mp hp with h | hp
          · exact absurd h hpq
          · apply hc p hp
            rw [MemFS.lookup_put]
            have hdot : p ≠ "." := by
              intro h
              rw [h] at hnone
              simp [MemFS.lookup] at hnone
            simp [hdot, hpq, hnone]
    · rw [hl] at h
      obtain ⟨ha, hb, hc⟩ := ih _ _ h
      refine ⟨ha, ?_, ?_⟩
      · intro p hp
        rcases List.mem_cons.mp hp with rfl | hp
        · exact ⟨m, ha _ _ hl⟩
        · exact hb p hp
      · intro p hp hnone
        rcases List.mem_cons.mp hp with rfl | hp
        · rw [hl] at hnone; cases hnone
        · exact hc p hp hnone
    · rw [hl] at h
      simp at h

/-- `VerifyOrCreateDir` on the in-memory filesystem, on a path that `Stat` reports
missing: when it succeeds, the path and all its ancestors are directories, the ones
that were missing have mode 0755, and what existed before is unchanged. -/
theorem VerifyOrCreateDir_creates (directory : String) (w : World MemFS) (err : GoError)
    (hstat : memStat w.fs directory = .error err) (hne : osIsNotExist err = true)
    (hok : (VerifyOrCreateDir memOS directory w).1 = none) :
    (∀ p n, w.fs.lookup p = some n →
      (VerifyOrCreateDir memOS directory w).2.fs.lookup p = some n) ∧
    (∀ p, p ∈ pathChain directory →
      ∃ m, (VerifyOrCreateDir memOS directory w).2.fs.lookup p = some (.dir m)) ∧
    (∀ p, p ∈ pathChain directory → w.fs.lookup p = none →
      (VerifyOrCreateDir memOS directory w).2.fs.lookup p = some (.dir 0o755)) := by
  have hv : VerifyOrCreateDir memOS directory w
      = ((memMkdirAll w.fs directory 0o755).2,
         { fs := (memMkdirAll w.fs directory 0o755).1, polls := w.polls,
           trace := w.trace ++ [.Stat directory,
             .MkdirAll directory 0o755 (memMkdirAll w.fs directory 0o755).2] }) := by
    simp [VerifyOrCreateDir, memOS, hstat, hne, World.log]
  rw [hv] at hok ⊢
  exact memMkdirChain_creates 0o755 (pathChain directory) w.fs _
    (Prod.ext rfl hok)

end InMemory

section NamingSound

variable {σ : Type}

/-! ### Decimal formatting is injective -/

theorem digitChar_value (d : Nat) (h : d < 10) : (Nat.digitChar d).toNat - 48 = d := by
  interval_cases d <;> rfl

theorem digitsValue_append (cs : List Char) (c : Char) :
    digitsValue (cs ++ [c]) = digitsValue cs * 10 + (c.toNat - 48) := by
  simp [digitsValue, List.foldl_append]

theorem digitsValue_decDigits : ∀ (fuel n : Nat), n < fuel → digitsValue (decDigits fuel n) = n
  | 0, n, h => absurd h (Nat.not_lt_zero n)
  | fuel + 1, n, h => by
    unfold decDigits
    by_cases hn : n < 10
    · simp [hn, digitsValue, digitChar_value n hn]
    · simp only [hn, if_false]
      have hlt : n / 10 < fuel := by omega
      rw [digitsValue_append, digitsValue_decDigits fuel (n / 10) hlt,
        digitChar_value (n % 10) (Nat.mod_lt _ (by decide))]
      omega

theorem fmtInteger_injective {n m : Nat} (h : fmtInteger n = fmtInteger m) : n = m := by
  have hn := digitsValue_decDigits (n + 1) n (Nat.lt_succ_self n)
  have hm := digitsValue_decDigits (m + 1) m (Nat.lt_succ_self m)
  unfold fmtInteger at h
  rw [h] at hn
  exact hn.symm.trans hm

end NamingSound

section NamingSoundB

variable {σ : Type}

/-! ### `Sprintf` copies text without verbs -/

theorem doPrintf_literal (a : List Arg) (rest : List Char) :
    ∀ (p : List Char), '%' ∉ p →
      doPrintf (p ++ rest) a = (doPrintf rest a).map (fun r => p ++ r)
  | [], _ => by simp
  | c :: p, hp => by
    have hc : c ≠ '%' := fun h => hp (h ▸ List.mem_cons_self _ _)
    have hp' : '%' ∉ p := fun h => hp (List.mem_cons_of_mem _ h)
    have ih := doPrintf_literal a rest p hp'
    cases hpr : p ++ rest with
    | nil =>
      have h₁ : p = [] := (List.append_eq_nil.mp hpr).1
      have h₂ : rest = [] := (List.append_eq_nil.mp hpr).2
      subst h₁ h₂
      simp [doPrintf, hc]
    | cons v r =>
      rw [hpr] at ih
      rw [List.cons_append, hpr]
      simp only [doPrintf, hc, if_false, ih, Option.map_map]
      rfl

/-- The file-name pattern of a datasource, formatted. -/
theorem doPrintf_ds (s : String) (n : Nat) :
    doPrintf "%s.ds.%d.json".toList [.string s, .uint n]
      = some (s.toList ++ (".ds.".toList ++ (fmtInteger n ++ ".json".toList))) := by
  simp [doPrintf, printArg, extraArgs]

/-- The file-name pattern of a user, formatted. -/
theorem doPrintf_user (s : String) (n : Nat) :
    doPrintf "%s.user.%d.json".toList [.string s, .uint n]
      = some (s.toList ++ (".user.".toList ++ (fmtInteger n ++ ".json".toList))) := by
  simp [doPrintf, printArg, extraArgs]

/-! ### `path.Join` keeps the last element -/

theorem splitSlash_ne_nil (cs : List Char) : splitSlash cs ≠ [] := by
  cases cs with
  | nil => simp [splitSlash]
  | cons c cs =>
    unfold splitSlash
    by_cases hc : c = '/'
    · simp [hc]
    · simp only [hc, if_false]
      cases splitSlash cs <;> simp

theorem splitSlash_append (d pat : List Char) :
    splitSlash (d ++ '/' :: pat) = splitSlash d ++ splitSlash pat := by
  induction d with
  | nil => simp [splitSlash]
  | cons c d ih =>
    rw [List.cons_append]
    by_cases hc : c = '/'
    · simp only [splitSlash, hc, if_true, ih, List.cons_append]
    · simp only [splitSlash, hc, if_false, ih]
      cases hd : splitSlash d with
      | nil => exact absurd hd (splitSlash_ne_nil d)
      | cons h t => simp

theorem splitSlash_chars (d : List Char) :
    ∀ e, e ∈ splitSlash d → ∀ c, c ∈ e → c ∈ d := by
  induction d with
  | nil => intro e he c hc; simp [splitSlash] at he; subst he; cases hc
  | cons x d ih =>
    intro e he c hc
    unfold splitSlash at he
    by_cases hx : x = '/'
    · simp only [hx, if_true, List.mem_cons] at he
      rcases he with rfl | he
      · cases hc
      · exact List.mem_cons_of_mem _ (ih e he c hc)
    · simp only [hx, if_false] at he
      cases hd : splitSlash d with
      | nil => exact absurd hd (splitSlash_ne_nil d)
      | cons h t =>
        rw [hd] at he ih
        simp only [List.mem_cons] at he
        rcases he with rfl | he
        · rcases List.mem_cons.mp hc with rfl | hc
          · exact List.mem_cons_self _ _
          · exact List.mem_cons_of_mem _ (ih h (List.mem_cons_self _ _) c hc)
        · exact List.mem_cons_of_mem _ (ih e (List.mem_cons_of_mem _ he) c hc)

theorem cleanStep_mem (rooted : Bool) (out : List (List Char)) (x : List Char) :
    ∀ e, e ∈ cleanStep rooted out x → e ∈ out ∨ e = x := by
  intro e he
  unfold cleanStep at he
  split at he
  · exact Or.inl he
  · split at he
    · cases out with
      | nil =>
        cases rooted
        · simp at he; exact Or.inr he
        · simp at he
      | cons top rest =>
        simp only at he
        split at he
        · rcases List.mem_cons.mp he with h | h
          · exact Or.inr h
          · exact Or.inl h
        · exact Or.inl (List.mem_cons_of_mem _ he)
    · rcases List.mem_cons.mp he with h | h
      · exact Or.inr h
      · exact Or.inl h

theorem foldl_cleanStep_mem (rooted : Bool) (es : List (List Char)) :
    ∀ (out : List (List Char)) (e : List Char),
      e ∈ es.foldl (cleanStep rooted) out → e ∈ out ∨ e ∈ es := by
  induction es with
  | nil => intro out e he; exact Or.inl he
  | cons x es ih =>
    intro out e he
    rw [List.foldl_cons] at he
    rcases ih _ e he with h | h
    · rcases cleanStep_mem rooted out x e h with h | h
      · exact Or.inl h
      · exact Or.inr (h ▸ List.mem_cons_self _ _)
    · exact Or.inr (List.mem_cons_of_mem _ h)

theorem joinSlash_cons_cons (e y : List Char) (ys : List (List Char)) :
    joinSlash (e :: y :: ys) = e ++ '/' :: joinSlash (y :: ys) := by
  simp [joinSlash]

theorem joinSlash_append_singleton (xs : List (List Char)) (p : List Char) :
    joinSlash (xs ++ [p]) = (xs.map (fun e => e ++ ['/'])).flatten ++ p := by
  induction xs with
  | nil => simp [joinSlash]
  | cons x xs ih =>
    cases hxs : xs ++ [p] with
    | nil => simp at hxs
    | cons y ys =>
      rw [List.cons_append, hxs, joinSlash_cons_cons, ← hxs, ih]
      simp

end NamingSoundB

section NamingSoundC

variable {σ : Type}

theorem cleanStep_plain (rooted : Bool) (out : List (List Char)) {p : List Char}
    (hp : PlainName p) : cleanStep rooted out p = p :: out := by
  obtain ⟨_, h0, h1, h2⟩ := hp
  simp [cleanStep, h0, h1, h2]

theorem cleanChars_plain {p : List Char} (hp : PlainName p) : cleanChars p = p := by
  have hroot : (p.head? == some '/') = false := by
    cases p with
    | nil => rfl
    | cons c cs =>
      by_cases hc : c = '/'
      · have := hp.1
        simp [splitSlash, hc] at this
      · simp [hc]
  unfold cleanChars
  simp only [hp.2.1, if_false, hroot, hp.1, List.foldl_cons, List.foldl_nil,
    cleanStep_plain false [] hp]
  simp [joinSlash]

theorem cleanChars_join (d : List Char) (hd : d ≠ []) {p : List Char} (hp : PlainName p) :
    ∃ pre, (∀ c, c ∈ pre → c ∈ d ∨ c = '/') ∧ cleanChars (d ++ '/' :: p) = pre ++ p := by
  have hne : d ++ '/' :: p ≠ [] := by simp
  have hhead : (d ++ '/' :: p).head? = d.head? := by
    cases d with
    | nil => exact absurd rfl hd
    | cons c cs => rfl
  have hmem : ∀ (rooted : Bool) e,
      e ∈ ((splitSlash d).foldl (cleanStep rooted) []).reverse → ∀ c, c ∈ e → c ∈ d := by
    intro rooted e he c hc
    rcases foldl_cleanStep_mem rooted (splitSlash d) [] e (List.mem_reverse.mp he) with h | h
    · cases h
    · exact splitSlash_chars d e h c hc
  have hpre : ∀ (rooted : Bool) c,
      c ∈ ((((splitSlash d).foldl (cleanStep rooted) []).reverse).map
        (fun e => e ++ ['/'])).flatten → c ∈ d ∨ c = '/' := by
    intro rooted c hc
    rw [List.mem_flatten] at hc
    obtain ⟨l, hl, hcl⟩ := hc
    rw [List.mem_map] at hl
    obtain ⟨e, he, rfl⟩ := hl
    rcases List.mem_append.mp hcl with h | h
    · exact Or.inl (hmem rooted e he c h)
    · exact Or.inr (by simpa using h)
  unfold cleanChars
  simp only [hne, if_false, hhead, splitSlash_append, hp.1, List.foldl_append,
    List.foldl_cons, List.foldl_nil, cleanStep_plain _ _ hp, List.reverse_cons,
    joinSlash_append_singleton]
  cases hr : (d.head? == some '/') with
  | true =>
    refine ⟨'/' :: ((((splitSlash d).foldl (cleanStep true) []).reverse).map
      (fun e => e ++ ['/'])).flatten, ?_, by simp⟩
    intro c hc
    rcases List.mem_cons.mp hc with h | h
    · exact Or.inr h
    · exact hpre true c h
  | false =>
    refine ⟨((((splitSlash d).foldl (cleanStep false) []).reverse).map
      (fun e => e ++ ['/'])).flatten, hpre false, by simp⟩

/-- `path.Join` of a directory and a plain file name ends in the file name, after
text made of characters of the directory and slashes. -/
theorem pathJoin_plain (dir pat : String) (hp : PlainName pat.toList) :
    ∃ pre, (∀ c, c ∈ pre → c ∈ dir.toList ∨ c = '/') ∧
      pathJoin [dir, pat] = String.mk (pre ++ pat.toList) := by
  have hpat : pat ≠ "" := by
    intro h
    exact hp.2.1 (by rw [h]; rfl)
  by_cases hd : dir = ""
  · subst hd
    refine ⟨[], by simp, ?_⟩
    simp only [pathJoin, List.filter_cons, bne_self_eq_false, Bool.false_eq_true, if_false,
      bne_iff_ne, ne_eq, hpat, not_false_eq_true, decide_True, if_true, List.filter_nil,
      List.map_cons, List.map_nil, joinSlash, List.nil_append]
    exact congrArg String.mk (cleanChars_plain hp)
  · have hdl : dir.toList ≠ [] := by
      intro h
      apply hd
      cases dir with
      | mk data =>
        simp only [String.toList] at h
        subst h
        rfl
    obtain ⟨pre, hpre, hclean⟩ := cleanChars_join dir.toList hdl hp
    refine ⟨pre, hpre, ?_⟩
    simp only [pathJoin, List.filter_cons, bne_iff_ne, ne_eq, hd, hpat, not_false_eq_true,
      decide_True, if_true, List.filter_nil, List.map_cons, List.map_nil, joinSlash]
    exact congrArg String.mk hclean

theorem plainName_ds : PlainName "%s.ds.%d.json".toList := by
  refine ⟨by decide, by decide, by decide, by decide⟩

theorem plainName_user : PlainName "%s.user.%d.json".toList := by
  refine ⟨by decide, by decide, by decide, by decide⟩

/-- Collision avoidance where the output directory holds no percent sign: the path of
a datasource is the cleaned directory followed by the slug, `.ds.`, the organization
id in decimal and `.json`, so two datasources with the same name whose paths are equal
have the same organization id; likewise for users and their logins. -/
theorem fname_org_injective (rt : Runtime σ) (hsound : SprintfSound rt.Sprintf)
    (hdir : '%' ∉ rt.flagDir.toList) :
    (∀ a b : Datasource, a.Name = b.Name → a.OrgID ≠ b.OrgID →
      datasourceFname rt a ≠ datasourceFname rt b) ∧
    (∀ a b : User, a.Login = b.Login → a.OrgID ≠ b.OrgID →
      userFname rt a ≠ userFname rt b) := by
  constructor
  · intro a b hname horg h
    obtain ⟨pre, hpre, hjoin⟩ := pathJoin_plain rt.flagDir "%s.ds.%d.json" plainName_ds
    have hpc : '%' ∉ pre := by
      intro hc
      rcases hpre _ hc with h | h
      · exact hdir h
      · exact absurd h (by decide)
    have hf : ∀ s n, fmtSprintf (String.mk (pre ++ "%s.ds.%d.json".toList))
        [.string s, .uint n]
          = some (String.mk
              (pre ++ (s.toList ++ (".ds.".toList ++ (fmtInteger n ++ ".json".toList))))) := by
      intro s n
      show (doPrintf (pre ++ "%s.ds.%d.json".toList) [.string s, .uint n]).map String.mk = _
      rw [doPrintf_literal _ _ pre hpc, doPrintf_ds]
      rfl
    unfold datasourceFname at h
    rw [hjoin, hsound _ _ _ (hf _ _), hsound _ _ _ (hf _ _), hname] at h
    have h' := String.ext_iff.mp h
    have h'' := List.append_cancel_left (List.append_cancel_left (List.append_cancel_left h'))
    exact horg (fmtInteger_injective (List.append_cancel_right h''))
  · intro a b hname horg h
    obtain ⟨pre, hpre, hjoin⟩ := pathJoin_plain rt.flagDir "%s.user.%d.json" plainName_user
    have hpc : '%' ∉ pre := by
      intro hc
      rcases hpre _ hc with h | h
      · exact hdir h
      · exact absurd h (by decide)
    have hf : ∀ s n, fmtSprintf (String.mk (pre ++ "%s.user.%d.json".toList))
        [.string s, .uint n]
          = some (String.mk
              (pre ++ (s.toList ++ (".user.".toList ++ (fmtInteger n ++ ".json".toList))))) := by
      intro s n
      show (doPrintf (pre ++ "%s.user.%d.json".toList) [.string s, .uint n]).map String.mk = _
      rw [doPrintf_literal _ _ pre hpc, doPrintf_user]
      rfl
    unfold userFname at h
    rw [hjoin, hsound _ _ _ (hf _ _), hsound _ _ _ (hf _ _), hname] at h
    have h' := String.ext_iff.mp h
    have h'' := List.append_cancel_left (List.append_cancel_left (List.append_cancel_left h'))
    exact horg (fmtInteger_injective (List.append_cancel_right h''))

end NamingSoundC

/-! ## The claims -/

section Filtering

variable {σ : Type}

/-- What a returning run added, split by projection. -/
theorem written_of_no_failure {δ : List Event} {X : List (String × Bytes)}
    (hfail : writesFailed δ = []) (hatt : writesAttempted δ = X) : filesWritten δ = X := by
  rw [filesWritten_eq_attempted δ hfail, hatt]

theorem filterMap_datasourceWrite (rt : Runtime σ) (filter : Option GoMap)
    (all : List Datasource)
    (hmarshal : ∀ ds, ds ∈ all → (rt.jsonMarshalDatasource ds).2 = none) :
    all.filterMap (datasourceWrite rt filter)
      = (all.filter (datasourceKept filter)).map
          (fun ds => (datasourceFname rt ds, (rt.jsonMarshalDatasource ds).1)) := by
  induction all with
  | nil => rfl
  | cons ds rest ih =>
    have hrest := ih (fun d hd => hmarshal d (List.mem_cons_of_mem _ hd))
    have hds := hmarshal ds (List.mem_cons_self _ _)
    rcases hm : rt.jsonMarshalDatasource ds with ⟨raw, err⟩
    rw [hm] at hds
    change err = none at hds
    subst hds
    cases hk : datasourceKept filter ds <;>
      simp [List.filterMap_cons, List.filter_cons, datasourceWrite, hk, hm, hrest]

/-- C1. Filtering correctness of `backupDatasources`: when the remote service lists
`all`, no signal arrives, every serialization succeeds and no write of the pass fails,
the pass returns and the files written are, in list order, those of the listed
datasources whose `Name` is a key of the supplied map `R` (none for an empty `R`, and
never one whose name is not in `R`); with the nil map they are those of every listed
datasource. -/
theorem backupDatasources_filtering (rt : Runtime σ) (cmd : Command)
    (datasources : Option GoMap) (all : List Datasource) (w : World σ)
    (hlist : cmd.grafana.GetAllDatasources = .ok all)
    (hcancel : ∀ i, rt.cancel i = false)
    (hmarshal : ∀ ds, ds ∈ all → (rt.jsonMarshalDatasource ds).2 = none)
    (hwrite : writesFailed (eventsOf w (backupDatasources rt cmd datasources w)) = []) :
    (∃ w', backupDatasources rt cmd datasources w = .returned () w') ∧
    (∀ R, datasources = some R →
      filesWritten (eventsOf w (backupDatasources rt cmd datasources w))
        = (all.filter (fun ds => R.has ds.Name)).map
            (fun ds => (datasourceFname rt ds, (rt.jsonMarshalDatasource ds).1))) ∧
    (datasources = some [] →
      filesWritten (eventsOf w (backupDatasources rt cmd datasources w)) = []) ∧
    (datasources = none →
      filesWritten (eventsOf w (backupDatasources rt cmd datasources w))
        = all.map (fun ds => (datasourceFname rt ds, (rt.jsonMarshalDatasource ds).1))) := by
  obtain ⟨w', δ, hrun, ht, _, hatt, _⟩ :=
    backupDatasources_run rt cmd datasources w all hlist (fun i _ => hcancel _)
  have hev : eventsOf w (backupDatasources rt cmd datasources w) = δ := by
    apply eventsOf_eq; rw [hrun]; exact ht
  rw [hev] at hwrite ⊢
  have hfiles := written_of_no_failure hwrite hatt
  rw [filterMap_datasourceWrite rt datasources all hmarshal] at hfiles
  refine ⟨⟨w', hrun⟩, ?_, ?_, ?_⟩
  · intro R hR
    subst hR
    exact hfiles
  · intro hR
    subst hR
    rw [hfiles]
    simp [datasourceKept, GoMap.has]
  · intro hR
    subst hR
    have hk : datasourceKept (none : Option GoMap) = fun _ => true := funext fun _ => rfl
    rw [hfiles, hk]
    simp

/-- C1 on the toy Grafana: with the reference set `{prometheus, loki}` the pass writes
the files of `prometheus` and `loki` and not the file of `graphite`. -/
theorem backupDatasources_filtering_witness :
    filesWritten (eventsOf (startWorld [])
        (backupDatasources demoRuntime demoCommand
          (some [("prometheus", true), ("loki", true)]) (startWorld [])))
      = [("out/prometheus.ds.1.json", [1]), ("out/loki.ds.2.json", [2])] :=
  ((backupDatasources_filtering demoRuntime demoCommand
      (some [("prometheus", true), ("loki", true)]) demoDatasources (startWorld [])
      rfl (fun _ => rfl) (by decide) (by decide)).2.1 _ rfl).trans (by decide)

end Filtering

section Extraction

theorem GoMap.has_iff (m : GoMap) (x : String) :
    m.has x = true ↔ ∃ e, e ∈ m ∧ e.1 = x := by
  simp [GoMap.has, List.any_eq_true]

theorem GoMap.has_set (m : GoMap) (k : String) (v : Bool) (x : String) :
    (m.set k v).has x = true ↔ x = k ∨ m.has x = true := by
  rw [GoMap.has_iff, GoMap.has_iff]
  unfold GoMap.set
  constructor
  · rintro ⟨e, he, rfl⟩
    rcases List.mem_cons.mp he with rfl | he
    · exact Or.inl rfl
    · exact Or.inr ⟨e, (List.mem_filter.mp he).1, rfl⟩
  · rintro (rfl | ⟨e, he, rfl⟩)
    · exact ⟨(x, v), List.mem_cons_self _ _, rfl⟩
    · by_cases hk : e.1 = k
      · exact ⟨(k, v), List.mem_cons_self _ _, hk.symm⟩
      · exact ⟨e, List.mem_cons_of_mem _ (List.mem_filter.mpr ⟨he, by simpa using hk⟩), rfl⟩

/-- The inner loop of `extractDatasources`: the panels of one row. -/
theorem has_foldl_panels (panels : List Panel) (m : GoMap) (x : String) :
    (panels.foldl
        (fun m panel =>
          match panel.Datasource with
          | some name => m.set name true
          | none => m)
        m).has x = true
      ↔ m.has x = true ∨ ∃ panel, panel ∈ panels ∧ panel.Datasource = some x := by
  induction panels generalizing m with
  | nil => simp
  | cons p ps ih =>
    rw [List.foldl_cons, ih]
    rcases hp : p.Datasource with _ | name
    · simp [hp]
    · simp only [GoMap.has_set, List.mem_cons, exists_eq_or_imp, hp, Option.some.injEq]
      constructor
      · rintro ((h | h) | h)
        · exact Or.inr (Or.inl h.symm)
        · exact Or.inl h
        · exact Or.inr (Or.inr h)
      · rintro (h | h | h)
        · exact Or.inl (Or.inr h)
        · exact Or.inl (Or.inl h.symm)
        · exact Or.inr h

theorem has_extractDatasources (S : GoMap) (board : Board) (x : String) :
    (extractDatasources S board).has x = true
      ↔ S.has x = true ∨
        ∃ row, row ∈ board.Rows ∧ ∃ panel, panel ∈ row.Panels ∧ panel.Datasource = some x := by
  unfold extractDatasources
  generalize board.Rows = rows
  induction rows generalizing S with
  | nil => simp
  | cons r rs ih =>
    rw [List.foldl_cons, ih, has_foldl_panels]
    constructor
    · rintro ((h | ⟨p, hp, hx⟩) | ⟨row, hrow, h⟩)
      · exact Or.inl h
      · exact Or.inr ⟨r, List.mem_cons_self _ _, p, hp, hx⟩
      · exact Or.inr ⟨row, List.mem_cons_of_mem _ hrow, h⟩
    · rintro (h | ⟨row, hrow, h⟩)
      · exact Or.inl (Or.inl h)
      · rcases List.mem_cons.mp hrow with rfl | hrow
        · exact Or.inl (Or.inr h)
        · exact Or.inr ⟨row, hrow, h⟩

/-- C2, as the claim states it, fails: a panel whose datasource reference is present
and names the empty string adds the empty string to the set. -/
theorem extractDatasources_empty_name :
    ¬ (∀ (S : GoMap) (board : Board) (name : String),
        (extractDatasources S board).has name = true
          ↔ S.has name = true ∨
            ∃ row, row ∈ board.Rows ∧ ∃ panel, panel ∈ row.Panels ∧
              panel.Datasource = some name ∧ name ≠ "") := by
  intro h
  have h₁ : (extractDatasources [] boardEmptyName).has "" = true := by decide
  rcases (h [] boardEmptyName "").mp h₁ with h₂ | ⟨_, _, _, _, _, h₂⟩
  · exact absurd h₂ (by decide)
  · exact h₂ rfl

/-- C2, amended. Extraction correctness of `extractDatasources`: after the call a name
is in the set exactly when it was in it before or some panel of some row of the board
carries a datasource reference (a non-nil pointer) with that name, the empty string
included; a panel without reference adds nothing.  On the board with rows `A`, `A`,
`B` and a row without reference, from the empty set, the result has the two members
`A` and `B`. -/
theorem extractDatasources_correct :
    (∀ (S : GoMap) (board : Board) (name : String),
      (extractDatasources S board).has name = true
        ↔ S.has name = true ∨
          ∃ row, row ∈ board.Rows ∧ ∃ panel, panel ∈ row.Panels ∧
            panel.Datasource = some name) ∧
    (∀ name, (extractDatasources [] boardAB).has name = true ↔ name = "A" ∨ name = "B") ∧
    extractDatasources [] boardAB = [("B", true), ("A", true)] := by
  refine ⟨has_extractDatasources, ?_, by decide⟩
  intro name
  have h : extractDatasources [] boardAB = [("B", true), ("A", true)] := by decide
  rw [h]
  simp only [GoMap.has, List.any_cons, List.any_nil, Bool.or_false, Bool.or_eq_true,
    beq_iff_eq]
  constructor
  · rintro (h | h)
    · exact Or.inr h.symm
    · exact Or.inl h.symm
  · rintro (h | h)
    · exact Or.inr h.symm
    · exact Or.inl h.symm

end Extraction

section Modes

variable {σ : Type}

/-- A pass that runs only when its flag is set. -/
theorem optional_pass (b : Bool) (pass : World σ → Outcome σ Unit) (c : Call) (w : World σ)
    (h : b = true → ∃ w' δ, pass w = .returned () w' ∧ w'.trace = w.trace ++ δ ∧
      callsOf δ = [c] ∧ unmarshalsOf δ = []) :
    ∃ w' δ, (if b = true then pass w else .returned () w) = .returned () w' ∧
      w'.trace = w.trace ++ δ ∧ callsOf δ = (if b = true then [c] else []) ∧
      unmarshalsOf δ = [] := by
  cases b with
  | false => exact ⟨w, [], by simp, by simp, by simp [callsOf], rfl⟩
  | true =>
    obtain ⟨w', δ, h₁, h₂, h₃, h₄⟩ := h rfl
    exact ⟨w', δ, by simpa using h₁, h₂, by simpa using h₃, h₄⟩

/-- A run in non-hierarchical mode whose dashboard search, if made, succeeds and
which receives no signal: it returns, having entered the requested passes in the
order dashboards, datasources, users, and having decoded no dashboard. -/
theorem doBackup_flat (rt : Runtime σ) (cmd : Command) (w : World σ)
    (hh : cmd.applyHierarchically = false)
    (hsearch : cmd.applyForBoards = true →
      ∃ links, cmd.grafana.SearchDashboards cmd.boardTitle cmd.starred cmd.tags = .ok links)
    (hcancel : ∀ i, rt.cancel i = false) :
    ∃ w' δ, doBackup rt cmd w = .returned () w' ∧ w'.trace = w.trace ++ δ ∧
      callsOf δ = (if cmd.applyForBoards = true then [.backupDashboards] else []) ++
        (if cmd.applyForDs = true then [.backupDatasources none] else []) ++
        (if cmd.applyForUsers = true then [Call.backupUsers] else []) ∧
      unmarshalsOf δ = [] := by
  obtain ⟨w₁, δ₁, h₁, t₁, c₁, u₁⟩ := optional_pass cmd.applyForBoards
    (backupDashboards rt cmd) .backupDashboards w (by
      intro hb
      obtain ⟨links, hl⟩ := hsearch hb
      obtain ⟨w', δ, ht, _, hrun, _, hc, _, hu⟩ :=
        backupDashboards_run rt cmd w links hl (fun i _ => hcancel _)
      refine ⟨w', δ, ?_, ht, hc, ?_⟩
      · rw [hrun]; simp [hh]
      · rw [hu]; simp [hh])
  obtain ⟨w₂, δ₂, h₂, t₂, c₂, u₂⟩ := optional_pass cmd.applyForDs
    (backupDatasources rt cmd none) (.backupDatasources none) w₁ (by
      intro _
      obtain ⟨w', δ, hrun, ht, hc, _, hu⟩ := backupDatasources_returns rt cmd none w₁ hcancel
      exact ⟨w', δ, hrun, ht, hc, hu⟩)
  obtain ⟨w₃, δ₃, h₃, t₃, c₃, u₃⟩ := optional_pass cmd.applyForUsers
    (backupUsers rt cmd) .backupUsers w₂ (by
      intro _
      obtain ⟨w', δ, hrun, ht, hc, _, hu⟩ := backupUsers_returns rt cmd w₂ hcancel
      exact ⟨w', δ, hrun, ht, hc, hu⟩)
  refine ⟨w₃, δ₁ ++ δ₂ ++ δ₃, ?_, ?_, ?_, ?_⟩
  · unfold doBackup
    simp only [hh, Bool.false_eq_true, if_false]
    rw [h₁]
    simp only [Outcome.andThen]
    rw [h₂]
    simp only [Outcome.andThen]
    exact h₃
  · rw [t₃, t₂, t₁]; simp
  · simp [c₁, c₂, c₃]
  · simp [u₁, u₂, u₃]

/-- A run in hierarchical mode whose dashboard search succeeds and which receives no
signal: it returns, having entered the dashboard pass and then the datasource pass
with the accumulated reference set, and nothing else. -/
theorem doBackup_hierarchical (rt : Runtime σ) (cmd : Command) (w : World σ)
    (links : List FoundBoard) (hh : cmd.applyHierarchically = true)
    (hsearch : cmd.grafana.SearchDashboards cmd.boardTitle cmd.starred cmd.tags = .ok links)
    (hcancel : ∀ i, rt.cancel i = false) :
    ∃ w' δ, doBackup rt cmd w = .returned () w' ∧ w'.trace = w.trace ++ δ ∧
      callsOf δ = [.backupDashboards, .backupDatasources (some (referenceSet rt cmd links))] ∧
      unmarshalsOf δ = links.filterMap (fetchedDocument cmd) := by
  obtain ⟨w₁, δ₁, t₁, _, h₁, _, c₁, _, u₁⟩ :=
    backupDashboards_run rt cmd w links hsearch (fun i _ => hcancel _)
  obtain ⟨w₂, δ₂, h₂, t₂, c₂, _, u₂⟩ :=
    backupDatasources_returns rt cmd (some (referenceSet rt cmd links)) w₁ hcancel
  refine ⟨w₂, δ₁ ++ δ₂, ?_, ?_, ?_, ?_⟩
  · unfold doBackup
    simp only [hh, if_true]
    rw [h₁]
    simp only [hh, if_true]
    exact h₂
  · rw [t₂, t₁]; simp
  · simp [c₁, c₂]
  · simp [u₁, u₂, hh]

/-- C3. Mode resolution of `doBackup`: for every combination of the four flags, when
the dashboard search succeeds and no signal arrives, the run returns and the passes
it entered are: in hierarchical mode the dashboard pass followed by the datasource pass
filtered by the reference set accumulated over the search results, whatever the other
three flags are; otherwise the dashboard pass, the unfiltered datasource pass and the
user pass, each if its flag is set, in that order.  Documents are decoded (extraction)
in hierarchical mode only. -/
theorem doBackup_mode_resolution (rt : Runtime σ) (cmd : Command) (w : World σ)
    (links : List FoundBoard)
    (hsearch : cmd.grafana.SearchDashboards cmd.boardTitle cmd.starred cmd.tags = .ok links)
    (hcancel : ∀ i, rt.cancel i = false) :
    (∃ w', doBackup rt cmd w = .returned () w') ∧
    callsOf (eventsOf w (doBackup rt cmd w))
      = (if cmd.applyHierarchically = true then
          [.backupDashboards, .backupDatasources (some (referenceSet rt cmd links))]
         else
          (if cmd.applyForBoards = true then [.backupDashboards] else []) ++
          (if cmd.applyForDs = true then [.backupDatasources none] else []) ++
          (if cmd.applyForUsers = true then [Call.backupUsers] else [])) ∧
    unmarshalsOf (eventsOf w (doBackup rt cmd w))
      = (if cmd.applyHierarchically = true then links.filterMap (fetchedDocument cmd)
         else []) := by
  cases hh : cmd.applyHierarchically with
  | true =>
    obtain ⟨w', δ, hrun, ht, hc, hu⟩ := doBackup_hierarchical rt cmd w links hh hsearch hcancel
    have hev : eventsOf w (doBackup rt cmd w) = δ := by
      apply eventsOf_eq; rw [hrun]; exact ht
    rw [hev]
    exact ⟨⟨w', hrun⟩, by simpa using hc, by simpa using hu⟩
  | false =>
    obtain ⟨w', δ, hrun, ht, hc, hu⟩ :=
      doBackup_flat rt cmd w hh (fun _ => ⟨links, hsearch⟩) hcancel
    have hev : eventsOf w (doBackup rt cmd w) = δ := by
      apply eventsOf_eq; rw [hrun]; exact ht
    rw [hev]
    exact ⟨⟨w', hrun⟩, by simpa using hc, by simpa using hu⟩

/-- C3 on the toy Grafana, with hierarchical set, dashboards and datasources unset and
users set: the dashboard pass and the filtered datasource pass run, the user pass does
not. -/
theorem doBackup_mode_resolution_witness :
    callsOf (eventsOf (startWorld [])
        (doBackup demoRuntime
          { demoCommand with applyHierarchically := true, applyForBoards := false,
                             applyForDs := false, applyForUsers := true }
          (startWorld [])))
      = [.backupDashboards, .backupDatasources (some [("prometheus", true)])] :=
  (doBackup_mode_resolution demoRuntime
      { demoCommand with applyHierarchically := true, applyForBoards := false,
                         applyForDs := false, applyForUsers := true }
      (startWorld []) [{ URI := "db/one" }, { URI := "db/gone" }, { URI := "db/bad" }]
      rfl (fun _ => rfl)).2.1.trans (by decide)

end Modes

section Isolation

variable {σ : Type}

/-- Write isolation in the dashboard pass: when the search returns `links`, no signal
arrives and no write of the run fails, the dashboard pass fetches every search result,
and the files it writes before going on (to the datasource pass in hierarchical mode,
to its return otherwise) are, in order, one for each result whose fetch succeeds,
holding the fetched bytes unchanged, and none for a result whose fetch fails:
`dashboardWrite` of a result depends on that result's fetch alone, not on the other
results and not on what decoding the document gives. -/
theorem backupDashboards_isolation (rt : Runtime σ) (cmd : Command) (w : World σ)
    (links : List FoundBoard)
    (hsearch : cmd.grafana.SearchDashboards cmd.boardTitle cmd.starred cmd.tags = .ok links)
    (hcancel : ∀ i, rt.cancel i = false)
    (hwrite : writesFailed (eventsOf w (backupDashboards rt cmd w)) = []) :
    (∃ w₁ δ₁, w₁.trace = w.trace ++ δ₁ ∧
      backupDashboards rt cmd w
        = (if cmd.applyHierarchically = true then
            backupDatasources rt cmd (some (referenceSet rt cmd links)) w₁
           else .returned () w₁) ∧
      callsOf δ₁ = [.backupDashboards] ∧
      fetchesOf δ₁ = links.map FoundBoard.URI ∧
      filesWritten δ₁ = links.filterMap (dashboardWrite rt cmd)) ∧
    (∀ link raw props, cmd.grafana.GetRawDashboardBySlug link.URI = .ok (raw, props) →
      dashboardWrite rt cmd link = some (dashboardFname rt props.Slug, raw)) ∧
    (∀ link e, cmd.grafana.GetRawDashboardBySlug link.URI = .error e →
      dashboardWrite rt cmd link = none) := by
  refine ⟨?_, ?_, ?_⟩
  · obtain ⟨w₁, δ₁, t₁, _, hrun, hatt, hc, hf, _⟩ :=
      backupDashboards_run rt cmd w links hsearch (fun i _ => hcancel _)
    refine ⟨w₁, δ₁, t₁, hrun, hc, hf, ?_⟩
    apply written_of_no_failure _ hatt
    cases hh : cmd.applyHierarchically with
    | false =>
      have hev : eventsOf w (backupDashboards rt cmd w) = δ₁ := by
        apply eventsOf_eq; rw [hrun]; simp [hh, Outcome.world, t₁]
      rw [hev] at hwrite
      exact hwrite
    | true =>
      obtain ⟨w₂, δ₂, h₂, t₂, _⟩ :=
        backupDatasources_returns rt cmd (some (referenceSet rt cmd links)) w₁ hcancel
      have hev : eventsOf w (backupDashboards rt cmd w) = δ₁ ++ δ₂ := by
        apply eventsOf_eq; rw [hrun]; simp [hh, h₂, Outcome.world, t₂, t₁]
      rw [hev, writesFailed_append] at hwrite
      exact (List.append_eq_nil.mp hwrite).1
  · intro link raw props h
    simp [dashboardWrite, h]
  · intro link e h
    simp [dashboardWrite, h]

/-- Write isolation on the toy Grafana in hierarchical mode: of the results `db/one`,
`db/gone` (fetch fails) and `db/bad` (decoding fails) the first and the last are
written. -/
theorem backupDashboards_isolation_example :
    ∃ w₁ δ₁, w₁.trace = (startWorld []).trace ++ δ₁ ∧
      backupDashboards demoRuntime { demoCommand with applyHierarchically := true }
          (startWorld [])
        = backupDatasources demoRuntime { demoCommand with applyHierarchically := true }
            (some [("prometheus", true)]) w₁ ∧
      callsOf δ₁ = [.backupDashboards] ∧
      fetchesOf δ₁ = ["db/one", "db/gone", "db/bad"] ∧
      filesWritten δ₁ = [("out/one.db.json", [1]), ("out/bad.db.json", [0])] :=
  (backupDashboards_isolation demoRuntime { demoCommand with applyHierarchically := true }
    (startWorld []) [{ URI := "db/one" }, { URI := "db/gone" }, { URI := "db/bad" }]
    rfl (fun _ => rfl) (by decide)).1

/-- C4 at the failing input: a hierarchical run over `db/half`, whose decoding stores
its rows (a panel on `graphite`) in `board` and then fails, and `db/norows`, whose
document has no rows and decodes without error.  Both documents are written with
their fetched bytes, and at the failing iteration the set is left as it was; but
`board` is one variable for the whole loop (line 59) and is not reset before
`json.Unmarshal` (line 85), so the successful decoding of `db/norows` still holds the
rows of `db/half` and `extractDatasources` adds `graphite`.  The dashboard whose
decoding failed has added a name to the reference set, and the datasource pass
writes `graphite`, which no decoded dashboard references. -/
theorem failed_parse_reaches_reference_set :
    (staleUnmarshal [3] Board.zero).2
      = some (.other "json: cannot unmarshal number into Go struct field Board.title") ∧
    (referenceStep staleRuntime staleCommand { board := Board.zero, datasources := [] }
        { URI := "db/half" }).datasources = [] ∧
    (staleUnmarshal [4] Board.zero).2 = none ∧
    extractDatasources [] (staleUnmarshal [4] Board.zero).1 = [] ∧
    referenceSet staleRuntime staleCommand [{ URI := "db/half" }, { URI := "db/norows" }]
      = [("graphite", true)] ∧
    callsOf (eventsOf (startWorld []) (doBackup staleRuntime staleCommand (startWorld [])))
      = [.backupDashboards, .backupDatasources (some [("graphite", true)])] ∧
    filesWritten (eventsOf (startWorld [])
        (doBackup staleRuntime staleCommand (startWorld [])))
      = [("out/half.db.json", [3]), ("out/norows.db.json", [4]),
         ("out/graphite.ds.1.json", [1])] := by
  decide

end Isolation

section Failures

variable {σ : Type}

/-- C5, as the claim states it, fails: in a non-hierarchical request for all three
passes whose dashboard search fails, the process exits with status 1 in the dashboard
pass; neither the datasource pass nor the user pass is entered. -/
theorem search_failure_stops_run :
    demoCommand.applyHierarchically = false ∧ demoCommand.applyForDs = true ∧
    demoCommand.applyForUsers = true ∧
    doBackup demoRuntime
        { demoCommand with
          grafana := { demoClient with
            SearchDashboards := fun _ _ _ => .error (.other "connection refused") } }
        (startWorld [])
      = .halted (.osExit 1)
          { fs := [], polls := 0,
            trace := [.call .backupDashboards, .SearchDashboards "" false []] } ∧
    callsOf (doBackup demoRuntime
        { demoCommand with
          grafana := { demoClient with
            SearchDashboards := fun _ _ _ => .error (.other "connection refused") } }
        (startWorld [])).world.trace = [.backupDashboards] := by
  decide

/-- C5, amended. A failed dashboard search ends the whole process with exit status 1,
in hierarchical and in non-hierarchical mode alike: after the entry into the dashboard
pass and the search nothing is written and no other pass is entered.  A failed listing
of datasources or of users is fatal for its own pass only: the pass returns having
made its list call and nothing else, and in a non-hierarchical run whose dashboard
pass, if requested, found its dashboards and which receives no signal, the user pass
is still entered after a failed datasource listing. -/
theorem list_failure_policy (rt : Runtime σ) (cmd : Command) (w : World σ) :
    (∀ e, cmd.grafana.SearchDashboards cmd.boardTitle cmd.starred cmd.tags = .error e →
      (cmd.applyHierarchically = true ∨ cmd.applyForBoards = true) →
      doBackup rt cmd w
        = .halted (.osExit 1) ((w.log (.call .backupDashboards)).log
            (.SearchDashboards cmd.boardTitle cmd.starred cmd.tags))) ∧
    (∀ e datasources, cmd.grafana.GetAllDatasources = .error e →
      backupDatasources rt cmd datasources w
        = .returned () ((w.log (.call (.backupDatasources datasources))).log
            .GetAllDatasources)) ∧
    (∀ e, cmd.grafana.GetAllUsers = .error e →
      backupUsers rt cmd w
        = .returned () ((w.log (.call .backupUsers)).log .GetAllUsers)) ∧
    (∀ e, cmd.grafana.GetAllDatasources = .error e →
      cmd.applyHierarchically = false → cmd.applyForDs = true → cmd.applyForUsers = true →
      (cmd.applyForBoards = true →
        ∃ links, cmd.grafana.SearchDashboards cmd.boardTitle cmd.starred cmd.tags
          = .ok links) →
      (∀ i, rt.cancel i = false) →
      (∃ w', doBackup rt cmd w = .returned () w') ∧
      callsOf (eventsOf w (doBackup rt cmd w))
        = (if cmd.applyForBoards = true then [.backupDashboards] else []) ++
            [.backupDatasources none, .backupUsers]) := by
  refine ⟨?_, ?_, ?_, ?_⟩
  · intro e he hmode
    unfold doBackup
    cases hh : cmd.applyHierarchically with
    | true => simp [backupDashboards_error rt cmd w e he]
    | false =>
      have hb : cmd.applyForBoards = true := by
        rcases hmode with h | h
        · rw [hh] at h; exact absurd h (by decide)
        · exact h
      simp [hb, backupDashboards_error rt cmd w e he, Outcome.andThen]
  · intro e datasources he
    exact backupDatasources_error rt cmd datasources w e he
  · intro e he
    exact backupUsers_error rt cmd w e he
  · intro e _ hh hds hus hsearch hcancel
    obtain ⟨w', δ, hrun, ht, hc, _⟩ := doBackup_flat rt cmd w hh hsearch hcancel
    have hev : eventsOf w (doBackup rt cmd w) = δ := by
      apply eventsOf_eq; rw [hrun]; exact ht
    rw [hev, hc]
    exact ⟨⟨w', hrun⟩, by simp [hds, hus]⟩

/-- C5, amended, on the toy Grafana with a failing datasource listing: the run
returns and the user pass is entered after the datasource pass. -/
theorem list_failure_policy_witness :
    callsOf (eventsOf (startWorld [])
        (doBackup demoRuntime
          { demoCommand with
            grafana := { demoClient with GetAllDatasources := .error (.other "timeout") } }
          (startWorld [])))
      = [.backupDashboards, .backupDatasources none, .backupUsers] :=
  ((list_failure_policy demoRuntime
      { demoCommand with
        grafana := { demoClient with GetAllDatasources := .error (.other "timeout") } }
      (startWorld [])).2.2.2 (.other "timeout") rfl rfl rfl rfl
      (fun _ => ⟨_, rfl⟩) (fun _ => rfl)).2

/-- C6 at the failing input: the output path `out` is a regular file, so
`VerifyOrCreateDir` returns its failure, as its comment (lines 200-201) says it does;
the callers (lines 73, 118, 155) drop the returned error, and each of the three passes
still calls `WriteFile` for every one of its items. -/
theorem setup_failure_not_fatal :
    (VerifyOrCreateDir memOS "out" (startWorld [("out", .file [] 0o644)])).1
      = some (.errorString "Specified path is not a directory!") ∧
    writesAttempted (eventsOf (startWorld [("out", .file [] 0o644)])
        (backupDashboards demoRuntime demoCommand (startWorld [("out", .file [] 0o644)])))
      = [("out/one.db.json", [1]), ("out/bad.db.json", [0])] ∧
    writesAttempted (eventsOf (startWorld [("out", .file [] 0o644)])
        (backupDatasources demoRuntime demoCommand none (startWorld [("out", .file [] 0o644)])))
      = [("out/prometheus.ds.1.json", [1]), ("out/graphite.ds.1.json", [1]),
         ("out/loki.ds.2.json", [2])] ∧
    writesAttempted (eventsOf (startWorld [("out", .file [] 0o644)])
        (backupUsers demoRuntime demoCommand (startWorld [("out", .file [] 0o644)])))
      = [("out/ann.user.1.json", [1]), ("out/bob.user.1.json", [1]),
         ("out/cy.user.2.json", [2]), ("out/dee.user.2.json", [2]),
         ("out/eve.user.3.json", [3])] := by
  decide

/-- The result of `VerifyOrCreateDir` is dropped by all three passes, for every
filesystem: when it returns a failure the pass goes on to its loop as after a success,
and with no signal it calls `WriteFile` once for every item it has bytes for: every
user, every datasource that is kept and serialized, every dashboard whose fetch
succeeds, in hierarchical mode as well, where the datasource pass then follows. -/
theorem setup_result_discarded (rt : Runtime σ) (cmd : Command) (w : World σ)
    (hcancel : ∀ i, rt.cancel i = false) :
    (∀ users err, cmd.grafana.GetAllUsers = .ok users →
      (VerifyOrCreateDir rt.os rt.flagDir
        ((w.log (.call .backupUsers)).log .GetAllUsers)).1 = some err →
      writesAttempted (eventsOf w (backupUsers rt cmd w)) = users.map (userWrite rt)) ∧
    (∀ all datasources err, cmd.grafana.GetAllDatasources = .ok all →
      (VerifyOrCreateDir rt.os rt.flagDir
        ((w.log (.call (.backupDatasources datasources))).log .GetAllDatasources)).1
          = some err →
      writesAttempted (eventsOf w (backupDatasources rt cmd datasources w))
        = all.filterMap (datasourceWrite rt datasources)) ∧
    (∀ links err,
      cmd.grafana.SearchDashboards cmd.boardTitle cmd.starred cmd.tags = .ok links →
      (VerifyOrCreateDir rt.os rt.flagDir
        ((w.log (.call .backupDashboards)).log
          (.SearchDashboards cmd.boardTitle cmd.starred cmd.tags))).1 = some err →
      ∃ w₁ δ₁, w₁.trace = w.trace ++ δ₁ ∧
        backupDashboards rt cmd w
          = (if cmd.applyHierarchically = true then
              backupDatasources rt cmd (some (referenceSet rt cmd links)) w₁
             else .returned () w₁) ∧
        callsOf δ₁ = [.backupDashboards] ∧
        writesAttempted δ₁ = links.filterMap (dashboardWrite rt cmd)) := by
  refine ⟨?_, ?_, ?_⟩
  · intro users _ hlist _
    obtain ⟨w', δ, hrun, ht, _, hatt, _⟩ :=
      backupUsers_run rt cmd w users hlist (fun i _ => hcancel _)
    have hev : eventsOf w (backupUsers rt cmd w) = δ := by
      apply eventsOf_eq; rw [hrun]; exact ht
    rw [hev, hatt]
  · intro all datasources _ hlist _
    obtain ⟨w', δ, hrun, ht, _, hatt, _⟩ :=
      backupDatasources_run rt cmd datasources w all hlist (fun i _ => hcancel _)
    have hev : eventsOf w (backupDatasources rt cmd datasources w) = δ := by
      apply eventsOf_eq; rw [hrun]; exact ht
    rw [hev, hatt]
  · intro links _ hsearch _
    obtain ⟨w', δ, ht, _, hrun, hatt, hc, _⟩ :=
      backupDashboards_run rt cmd w links hsearch (fun i _ => hcancel _)
    exact ⟨w', δ, ht, hrun, hc, hatt⟩

/-- The dropped result on the toy Grafana whose output path is a regular file: the user
pass attempts its five writes. -/
theorem setup_result_discarded_example :
    writesAttempted (eventsOf (startWorld [("out", .file [] 0o644)])
        (backupUsers demoRuntime demoCommand (startWorld [("out", .file [] 0o644)])))
      = demoUsers.map (userWrite demoRuntime) :=
  (setup_result_discarded demoRuntime demoCommand (startWorld [("out", .file [] 0o644)])
    (fun _ => rfl)).1 demoUsers (.errorString "Specified path is not a directory!") rfl
    (by decide)

theorem filterMap_datasourceWrite_serialized (rt : Runtime σ) (filter : Option GoMap)
    (all : List Datasource) :
    all.filterMap (datasourceWrite rt filter)
      = (all.filter (fun ds =>
            datasourceKept filter ds && (rt.jsonMarshalDatasource ds).2.isNone)).map
          (fun ds => (datasourceFname rt ds, (rt.jsonMarshalDatasource ds).1)) := by
  induction all with
  | nil => rfl
  | cons ds rest ih =>
    rcases hm : rt.jsonMarshalDatasource ds with ⟨raw, _ | e⟩ <;>
      cases hk : datasourceKept filter ds <;>
      simp [List.filterMap_cons, List.filter_cons, datasourceWrite, hk, hm, ih]

/-- C7. A serialization failure skips the item.  In the datasource pass, with no
signal, `WriteFile` is called, in list order, for exactly the kept datasources whose
`json.Marshal` returns no error: none for an item whose serialization fails, and one
for every other item.  In the user pass the error of `json.Marshal` is not read; on
an `sdk.User`, a record of `uint`, `string` and `bool` fields, `json.Marshal` returns
no error (hypothesis `hUser`), so the users whose serialization fails are none and
`WriteFile` is called for every listed user. -/
theorem serialization_failure_skips (rt : Runtime σ) (cmd : Command) (w : World σ)
    (hcancel : ∀ i, rt.cancel i = false)
    (hUser : ∀ user, (rt.jsonMarshalUser user).2 = none) :
    (∀ all datasources, cmd.grafana.GetAllDatasources = .ok all →
      (∃ w', backupDatasources rt cmd datasources w = .returned () w') ∧
      writesAttempted (eventsOf w (backupDatasources rt cmd datasources w))
        = (all.filter (fun ds =>
              datasourceKept datasources ds && (rt.jsonMarshalDatasource ds).2.isNone)).map
            (fun ds => (datasourceFname rt ds, (rt.jsonMarshalDatasource ds).1))) ∧
    (∀ users, cmd.grafana.GetAllUsers = .ok users →
      (∃ w', backupUsers rt cmd w = .returned () w') ∧
      writesAttempted (eventsOf w (backupUsers rt cmd w))
        = (users.filter (fun user => (rt.jsonMarshalUser user).2.isNone)).map
            (fun user => (userFname rt user, (rt.jsonMarshalUser user).1)) ∧
      writesAttempted (eventsOf w (backupUsers rt cmd w))
        = users.map (fun user => (userFname rt user, (rt.jsonMarshalUser user).1))) := by
  constructor
  · intro all datasources hlist
    obtain ⟨w', δ, hrun, ht, _, hatt, _⟩ :=
      backupDatasources_run rt cmd datasources w all hlist (fun i _ => hcancel _)
    have hev : eventsOf w (backupDatasources rt cmd datasources w) = δ := by
      apply eventsOf_eq; rw [hrun]; exact ht
    rw [hev, hatt, filterMap_datasourceWrite_serialized]
    exact ⟨⟨w', hrun⟩, rfl⟩
  · intro users hlist
    obtain ⟨w', δ, hrun, ht, _, hatt, _⟩ :=
      backupUsers_run rt cmd w users hlist (fun i _ => hcancel _)
    have hev : eventsOf w (backupUsers rt cmd w) = δ := by
      apply eventsOf_eq; rw [hrun]; exact ht
    have hall : users.filter (fun user => (rt.jsonMarshalUser user).2.isNone) = users := by
      rw [List.filter_eq_self]
      intro u _
      simp [hUser u]
    rw [hev, hatt, hall]
    exact ⟨⟨w', hrun⟩, rfl, rfl⟩

/-- C7 on the toy Grafana: the datasource `broken`, whose serialization fails, is
listed between two others; the pass calls `WriteFile` for the two others and not for
it. -/
theorem serialization_failure_skips_witness :
    (demoMarshalDatasource { Name := "broken", OrgID := 7 }).2
      = some (.other "json: unsupported value") ∧
    writesAttempted (eventsOf (startWorld [])
        (backupDatasources demoRuntime
          (demoCommand.withDatasources
            [{ Name := "prometheus", OrgID := 1 }, { Name := "broken", OrgID := 7 },
             { Name := "loki", OrgID := 2 }])
          none (startWorld [])))
      = [("out/prometheus.ds.1.json", [1]), ("out/loki.ds.2.json", [2])] :=
  ⟨by decide,
   ((serialization_failure_skips demoRuntime
      (demoCommand.withDatasources
        [{ Name := "prometheus", OrgID := 1 }, { Name := "broken", OrgID := 7 },
         { Name := "loki", OrgID := 2 }])
      (startWorld []) (fun _ => rfl) (fun _ => rfl)).1 _ none rfl).2.trans (by decide)⟩

end Failures

section Cancellation

variable {σ : Type}

/-- A loop whose channel never receives a signal returns after running every body. -/
theorem rangeSelect_neverCancelled {ι L : Type} (rt : Runtime σ)
    {body : ι → L → World σ → L × World σ} (hp : PollsFixed body)
    (items : List ι) (l : L) (w : World σ) :
    rangeSelect rt.neverCancelled body items l w
      = .returned (runBodies body items l w).1 (runBodies body items l w).2 :=
  rangeSelect_eq_runBodies rt.neverCancelled hp items l w (fun _ _ => rfl)

/-- C8. Cancellation mid-pass: in each of the three passes the channel is polled once
at the start of every iteration.  When the first `k` polls of a pass over more than
`k` items find no signal and the next one finds it, the pass halts at that poll by
`exitBySignal`, after `k + 1` polls, in the world in which the loop over the first `k`
items alone, run without any signal, returns; so the writes attempted (and, for
dashboards, the fetches made) are those of the first `k` items and none belongs to a
later item. -/
theorem cancellation_mid_pass (rt : Runtime σ) (cmd : Command) (w : World σ) (k : Nat)
    (hc : ∀ i, i < k → rt.cancel (w.polls + i) = false)
    (hs : rt.cancel (w.polls + k) = true) :
    (∀ links, cmd.grafana.SearchDashboards cmd.boardTitle cmd.starred cmd.tags = .ok links →
      k < links.length →
      (∃ l' w', rangeSelect rt.neverCancelled (dashboardBody rt.neverCancelled cmd)
            (links.take k) { board := Board.zero, datasources := [] }
            (loopStart rt.neverCancelled (.call .backupDashboards)
              (.SearchDashboards cmd.boardTitle cmd.starred cmd.tags) w) = .returned l' w' ∧
          backupDashboards rt cmd w = .halted .exitBySignal w'.poll) ∧
      (backupDashboards rt cmd w).world.polls = w.polls + k + 1 ∧
      callsOf (eventsOf w (backupDashboards rt cmd w)) = [.backupDashboards] ∧
      fetchesOf (eventsOf w (backupDashboards rt cmd w))
        = (links.take k).map FoundBoard.URI ∧
      writesAttempted (eventsOf w (backupDashboards rt cmd w))
        = (links.take k).filterMap (dashboardWrite rt cmd)) ∧
    (∀ all datasources, cmd.grafana.GetAllDatasources = .ok all → k < all.length →
      (∃ l' w', rangeSelect rt.neverCancelled (datasourceBody rt.neverCancelled datasources)
            (all.take k) ()
            (loopStart rt.neverCancelled (.call (.backupDatasources datasources))
              .GetAllDatasources w) = .returned l' w' ∧
          backupDatasources rt cmd datasources w = .halted .exitBySignal w'.poll) ∧
      (backupDatasources rt cmd datasources w).world.polls = w.polls + k + 1 ∧
      writesAttempted (eventsOf w (backupDatasources rt cmd datasources w))
        = (all.take k).filterMap (datasourceWrite rt datasources)) ∧
    (∀ users, cmd.grafana.GetAllUsers = .ok users → k < users.length →
      (∃ l' w', rangeSelect rt.neverCancelled (userBody rt.neverCancelled)
            (users.take k) ()
            (loopStart rt.neverCancelled (.call .backupUsers) .GetAllUsers w)
              = .returned l' w' ∧
          backupUsers rt cmd w = .halted .exitBySignal w'.poll) ∧
      (backupUsers rt cmd w).world.polls = w.polls + k + 1 ∧
      writesAttempted (eventsOf w (backupUsers rt cmd w))
        = (users.take k).map (userWrite rt)) := by
  refine ⟨?_, ?_, ?_⟩
  · intro links hsearch hk
    have hrun := backupDashboards_cancelled rt cmd w links k hsearch hk hc hs
    obtain ⟨δ, ht, hpolls, _, hatt, hcalls, hf, _⟩ := dashboardLoop_added rt cmd (links.take k) w
    have hlen : (links.take k).length = k := by
      rw [List.length_take]; omega
    have hev : eventsOf w (backupDashboards rt cmd w) = δ := by
      apply eventsOf_eq; rw [hrun]; exact ht
    have hloop := rangeSelect_neverCancelled rt (dashboardBody_polls rt cmd) (links.take k)
      { board := Board.zero, datasources := [] }
      (loopStart rt (.call .backupDashboards)
        (.SearchDashboards cmd.boardTitle cmd.starred cmd.tags) w)
    refine ⟨⟨_, _, hloop, hrun⟩, ?_, ?_, ?_, ?_⟩
    · rw [hrun]
      simp only [Outcome.world, poll_polls, hpolls, hlen]
    · rw [hev, hcalls]
    · rw [hev, hf]
    · rw [hev, hatt]
  · intro all datasources hlist hk
    have hrun := backupDatasources_cancelled rt cmd datasources w all k hlist hk hc hs
    obtain ⟨δ, ht, hpolls, hatt, _⟩ := datasourceLoop_added rt datasources (all.take k) w
    have hlen : (all.take k).length = k := by
      rw [List.length_take]; omega
    have hev : eventsOf w (backupDatasources rt cmd datasources w) = δ := by
      apply eventsOf_eq; rw [hrun]; exact ht
    have hloop := rangeSelect_neverCancelled rt (datasourceBody_polls rt datasources)
      (all.take k) () (loopStart rt (.call (.backupDatasources datasources))
        .GetAllDatasources w)
    refine ⟨⟨_, _, hloop, hrun⟩, ?_, ?_⟩
    · rw [hrun]
      simp only [Outcome.world, poll_polls, hpolls, hlen]
    · rw [hev, hatt]
  · intro users hlist hk
    have hrun := backupUsers_cancelled rt cmd w users k hlist hk hc hs
    obtain ⟨δ, ht, hpolls, hatt, _⟩ := userLoop_added rt (users.take k) w
    have hlen : (users.take k).length = k := by
      rw [List.length_take]; omega
    have hev : eventsOf w (backupUsers rt cmd w) = δ := by
      apply eventsOf_eq; rw [hrun]; exact ht
    have hloop := rangeSelect_neverCancelled rt (userBody_polls rt) (users.take k) ()
      (loopStart rt (.call .backupUsers) .GetAllUsers w)
    refine ⟨⟨_, _, hloop, hrun⟩, ?_, ?_⟩
    · rw [hrun]
      simp only [Outcome.world, poll_polls, hpolls, hlen]
    · rw [hev, hatt]

/-- C8 on the toy Grafana: five users, the signal arrives after the second; the files
of the first two users are written, nothing is attempted for the other three, and the
process has halted at the third poll. -/
theorem cancellation_mid_pass_witness :
    (backupUsers { demoRuntime with cancel := fun n => n == 2 } demoCommand
        (startWorld [])).world.polls = 3 ∧
    writesAttempted (eventsOf (startWorld [])
        (backupUsers { demoRuntime with cancel := fun n => n == 2 } demoCommand
          (startWorld [])))
      = [("out/ann.user.1.json", [1]), ("out/bob.user.1.json", [1])] :=
  ⟨((cancellation_mid_pass { demoRuntime with cancel := fun n => n == 2 } demoCommand
      (startWorld []) 2 (by decide) (by decide)).2.2 demoUsers rfl (by decide)).2.1,
   ((cancellation_mid_pass { demoRuntime with cancel := fun n => n == 2 } demoCommand
      (startWorld []) 2 (by decide) (by decide)).2.2 demoUsers rfl (by decide)).2.2.trans
      (by decide)⟩

end Cancellation

section Naming

variable {σ : Type}

theorem goSprintf_sound : SprintfSound goSprintf := by
  intro format a s h
  simp [goSprintf, h]

/-- The format string of a datasource when the output directory is `%s%c`. -/
theorem pathJoin_verbs_ds : pathJoin ["%s%c", "%s.ds.%d.json"] = "%s%c/%s.ds.%d.json" := by
  decide

/-- The format string of a user when the output directory is `%s%c`. -/
theorem pathJoin_verbs_user :
    pathJoin ["%s%c", "%s.user.%d.json"] = "%s%c/%s.user.%d.json" := by
  decide

/-- With the directory `%s%c` the two operands are consumed by the verbs of the
directory; the verbs of the file name find no operand. -/
theorem fmtSprintf_verbs_ds (s : String) (n : Nat) :
    fmtSprintf "%s%c/%s.ds.%d.json" [.string s, .uint n]
      = some (String.mk (s.toList ++ fmtC n :: "/%!s(MISSING).ds.%!d(MISSING).json".toList)) := by
  rfl

theorem fmtSprintf_verbs_user (s : String) (n : Nat) :
    fmtSprintf "%s%c/%s.user.%d.json" [.string s, .uint n]
      = some (String.mk
          (s.toList ++ fmtC n :: "/%!s(MISSING).user.%!d(MISSING).json".toList)) := by
  rfl

/-- C9 at the failing input: the output directory is `%s%c`.  `Sprintf` then formats
the name with the `%s` and the organization id with the `%c` of the directory, and
`%c` prints U+FFFD for every number that is not a code point: two datasources (two
users) with the same name (login) and two different such organization ids get the
same path. -/
theorem fname_collision (rt : Runtime σ) (hsound : SprintfSound rt.Sprintf)
    (hdir : rt.flagDir = "%s%c") (org₁ org₂ : Nat)
    (h₁ : ¬ Nat.isValidChar org₁) (h₂ : ¬ Nat.isValidChar org₂) :
    (∀ name, datasourceFname rt { Name := name, OrgID := org₁ }
        = datasourceFname rt { Name := name, OrgID := org₂ }) ∧
    (∀ login n₁ n₂, userFname rt { Login := login, Name := n₁, OrgID := org₁ }
        = userFname rt { Login := login, Name := n₂, OrgID := org₂ }) := by
  have hc : fmtC org₁ = fmtC org₂ := by simp [fmtC, h₁, h₂]
  constructor
  · intro name
    simp only [datasourceFname, hdir, pathJoin_verbs_ds]
    rw [hsound _ _ _ (fmtSprintf_verbs_ds _ _), hsound _ _ _ (fmtSprintf_verbs_ds _ _), hc]
  · intro login n₁ n₂
    simp only [userFname, hdir, pathJoin_verbs_user]
    rw [hsound _ _ _ (fmtSprintf_verbs_user _ _), hsound _ _ _ (fmtSprintf_verbs_user _ _), hc]

/-- C9 at the failing input, evaluated: the datasources `a` of the organizations 55296
and 55297 get the same path, in which neither organization id appears. -/
theorem fname_collision_witness :
    datasourceFname { demoRuntime with flagDir := "%s%c" } { Name := "a", OrgID := 55296 }
      = datasourceFname { demoRuntime with flagDir := "%s%c" } { Name := "a", OrgID := 55297 } ∧
    datasourceFname { demoRuntime with flagDir := "%s%c" } { Name := "a", OrgID := 55297 }
      = "a\uFFFD/%!s(MISSING).ds.%!d(MISSING).json" :=
  ⟨(fname_collision { demoRuntime with flagDir := "%s%c" } goSprintf_sound rfl 55296 55297
    (by decide) (by decide)).1 "a", by decide⟩

end Naming

section DirectoryGuard

variable {σ : Type}

/-- The four cases of `VerifyOrCreateDir`, for every behaviour of `Stat` and
`MkdirAll`. -/
theorem VerifyOrCreateDir_cases (os : OS σ) (directory : String) (w : World σ) :
    (∀ info, os.Stat w.fs directory = .ok info → info.IsDir = true →
      VerifyOrCreateDir os directory w = (none, w.log (.Stat directory)) ∧
      (VerifyOrCreateDir os directory w).2.fs = w.fs ∧
      VerifyOrCreateDir os directory (VerifyOrCreateDir os directory w).2
        = (none, (w.log (.Stat directory)).log (.Stat directory))) ∧
    (∀ info, os.Stat w.fs directory = .ok info → info.IsDir = false →
      VerifyOrCreateDir os directory w
        = (some (.errorString "Specified path is not a directory!"),
           w.log (.Stat directory)) ∧
      (VerifyOrCreateDir os directory w).2.fs = w.fs) ∧
    (∀ err, os.Stat w.fs directory = .error err → osIsNotExist err = true →
      VerifyOrCreateDir os directory w
        = ((os.MkdirAll w.fs directory 0o755).2,
           { fs := (os.MkdirAll w.fs directory 0o755).1, polls := w.polls,
             trace := w.trace ++ [.Stat directory,
               .MkdirAll directory 0o755 (os.MkdirAll w.fs directory 0o755).2] })) ∧
    (∀ err, os.Stat w.fs directory = .error err → osIsNotExist err = false →
      VerifyOrCreateDir os directory w = (some err, w.log (.Stat directory)) ∧
      (VerifyOrCreateDir os directory w).2.fs = w.fs) := by
  refine ⟨?_, ?_, ?_, ?_⟩
  · intro info hstat hdir
    have h₁ : VerifyOrCreateDir os directory w = (none, w.log (.Stat directory)) := by
      simp [VerifyOrCreateDir, hstat, hdir]
    refine ⟨h₁, by rw [h₁]; rfl, ?_⟩
    rw [h₁]
    simp [VerifyOrCreateDir, hstat, hdir]
  · intro info hstat hdir
    have h₁ : VerifyOrCreateDir os directory w
        = (some (.errorString "Specified path is not a directory!"),
           w.log (.Stat directory)) := by
      simp [VerifyOrCreateDir, hstat, hdir]
    exact ⟨h₁, by rw [h₁]; rfl⟩
  · intro err hstat hne
    simp [VerifyOrCreateDir, hstat, hne, World.log]
  · intro err hstat hne
    have h₁ : VerifyOrCreateDir os directory w = (some err, w.log (.Stat directory)) := by
      simp [VerifyOrCreateDir, hstat, hne]
    exact ⟨h₁, by rw [h₁]; rfl⟩

/-- C10. The contract of `VerifyOrCreateDir` over a filesystem state.  For every
behaviour of `os.Stat` and `os.MkdirAll`: (1) if the path exists and is a directory it
returns success without calling `MkdirAll` and leaves the filesystem as it was, and a
second call does the same; (2) if the path exists and is not a directory it returns
the failure "Specified path is not a directory!" and creates nothing; (3) if `Stat`
reports that the path does not exist it calls `MkdirAll(directory, 0755)` and returns
that call's result, a failure included, the filesystem being the one `MkdirAll`
leaves; (4) any other error of `Stat` is returned without a call of `MkdirAll`.  On
the in-memory filesystem, where `MkdirAll` is defined: (5) a successful call on a path
that does not exist leaves the path and all its ancestors directories, those that
were missing with mode 0755, and every node that existed unchanged. -/
theorem VerifyOrCreateDir_contract :
    (∀ (σ : Type) (os : OS σ) (directory : String) (w : World σ),
      (∀ info, os.Stat w.fs directory = .ok info → info.IsDir = true →
        VerifyOrCreateDir os directory w = (none, w.log (.Stat directory)) ∧
        (VerifyOrCreateDir os directory w).2.fs = w.fs ∧
        VerifyOrCreateDir os directory (VerifyOrCreateDir os directory w).2
          = (none, (w.log (.Stat directory)).log (.Stat directory))) ∧
      (∀ info, os.Stat w.fs directory = .ok info → info.IsDir = false →
        VerifyOrCreateDir os directory w
          = (some (.errorString "Specified path is not a directory!"),
             w.log (.Stat directory)) ∧
        (VerifyOrCreateDir os directory w).2.fs = w.fs) ∧
      (∀ err, os.Stat w.fs directory = .error err → osIsNotExist err = true →
        VerifyOrCreateDir os directory w
          = ((os.MkdirAll w.fs directory 0o755).2,
             { fs := (os.MkdirAll w.fs directory 0o755).1, polls := w.polls,
               trace := w.trace ++ [.Stat directory,
                 .MkdirAll directory 0o755 (os.MkdirAll w.fs directory 0o755).2] })) ∧
      (∀ err, os.Stat w.fs directory = .error err → osIsNotExist err = false →
        VerifyOrCreateDir os directory w = (some err, w.log (.Stat directory)) ∧
        (VerifyOrCreateDir os directory w).2.fs = w.fs)) ∧
    (∀ (directory : String) (w : World MemFS) (err : GoError),
      memStat w.fs directory = .error err → osIsNotExist err = true →
      (VerifyOrCreateDir memOS directory w).1 = none →
      (∀ p n, w.fs.lookup p = some n →
        (VerifyOrCreateDir memOS directory w).2.fs.lookup p = some n) ∧
      (∀ p, p ∈ pathChain directory →
        ∃ m, (VerifyOrCreateDir memOS directory w).2.fs.lookup p = some (.dir m)) ∧
      (∀ p, p ∈ pathChain directory → w.fs.lookup p = none →
        (VerifyOrCreateDir memOS directory w).2.fs.lookup p = some (.dir 0o755))) :=
  ⟨fun _ os directory w => VerifyOrCreateDir_cases os directory w,
   VerifyOrCreateDir_creates⟩

/-- C10 on the in-memory filesystem: on a path that does not exist the directory and
its two missing ancestors are created with mode 0755; a second call finds the
directory and changes nothing; on a regular file the call fails and creates nothing. -/
theorem VerifyOrCreateDir_contract_witness :
    (VerifyOrCreateDir memOS "a/b/c" (startWorld [])).1 = none ∧
    (VerifyOrCreateDir memOS "a/b/c" (startWorld [])).2.fs
      = [("a/b/c", .dir 0o755), ("a/b", .dir 0o755), ("a", .dir 0o755)] ∧
    VerifyOrCreateDir memOS "a/b/c" (VerifyOrCreateDir memOS "a/b/c" (startWorld [])).2
      = (none, ((VerifyOrCreateDir memOS "a/b/c" (startWorld [])).2.log (.Stat "a/b/c"))) ∧
    VerifyOrCreateDir memOS "a" (startWorld [("a", .file [7] 0o644)])
      = (some (.errorString "Specified path is not a directory!"),
         (startWorld [("a", .file [7] 0o644)]).log (.Stat "a")) :=
  ⟨by decide, by decide,
   ((VerifyOrCreateDir_contract.1 MemFS memOS "a/b/c"
      (VerifyOrCreateDir memOS "a/b/c" (startWorld [])).2).1 { IsDir := true }
      rfl rfl).1,
   ((VerifyOrCreateDir_contract.1 MemFS memOS "a" (startWorld [("a", .file [7] 0o644)])).2.1
      { IsDir := false } rfl rfl).1⟩

end DirectoryGuard

end GrafanaBackup
